import Mathlib

/-!
Shallow embedding of the Marching Waves computational core: the worker job
handlers of worker.js and the scheduler of worker-pool.js.

JavaScript numbers are modelled as rationals, and the Infinity sentinel that
the distance field stores is the top element of WithTop Rat (abbreviated
JVal).  Math.sqrt, Math.cos, Math.sin, Math.PI and Math.random have no exact
rational counterpart; they enter the embedding as parameters (functions on
rationals, and an explicit stream of random draws).  Every theorem below
either holds for all instantiations of those parameters or is evaluated on
inputs whose control flow never consults them; ratSqrt is the canonical
rational approximation used when a concrete run must be computed.

Unbounded while-loops of the source are given an explicit fuel argument;
theorems about a loop hold for every fuel value, and concrete executions are
run with enough fuel for the loop to reach its natural exit.
-/

namespace MarchingWaves

set_option maxRecDepth 10000

abbrev JVal := WithTop ℚ

/-- Rational stand-in for Math.sqrt, used when a concrete run has to be
evaluated: five unrolled Babylonian steps from (q + 1) / 2.  At q = 2 it is
accurate to better than 10^-7; no theorem below depends on more accuracy than
that, and most never evaluate it at all. -/
def ratSqrt (q : ℚ) : ℚ :=
  let x0 := (q + 1) / 2
  let x1 := (x0 + q / x0) / 2
  let x2 := (x1 + q / x1) / 2
  let x3 := (x2 + q / x2) / 2
  (x3 + q / x3) / 2

/-! ### Job dispatch and the temporal dead zone (worker.js)

Each handler body opens with `const t0 = performance.now()` and declares a
block-scoped `const performance = {...}` near its end.  Under JavaScript
temporal-dead-zone rules the opening read of `performance` resolves to that
not-yet-initialized block binding and throws a ReferenceError.  The message
dispatcher (worker.js lines 69 to 124) awaits the handler inside try/catch
and posts an error event when the awaited promise rejects.

handleExtractTSP is special: before its own timing call it awaits a promise
whose executor calls handleExtractStipple and attaches only a fulfillment
callback (lines 716 to 719).  The stipple rejection is therefore dropped, the
promise never settles, and the TSP handler suspends forever, producing no
terminal event at all. -/

inductive JobKind
  | solveEikonalCPU
  | extractContoursAdaptive
  | extractStreamlines
  | extractStipple
  | extractTSP
  | extractHatch
deriving DecidableEq

inductive JsErr
  | referenceError
deriving DecidableEq

inductive TerminalEvent
  | resultEvent
  | errorEvent
deriving DecidableEq

/-- Source line of the first performance.now() call in each handler body. -/
def perfUseLine : JobKind → ℕ
  | .solveEikonalCPU => 153
  | .extractContoursAdaptive => 323
  | .extractStreamlines => 453
  | .extractStipple => 580
  | .extractTSP => 727
  | .extractHatch => 818

/-- Source line of the block-scoped declaration const performance = { ... }
near the end of each handler body. -/
def perfDeclLine : JobKind → ℕ
  | .solveEikonalCPU => 306
  | .extractContoursAdaptive => 437
  | .extractStreamlines => 565
  | .extractStipple => 704
  | .extractTSP => 803
  | .extractHatch => 884

/-- Temporal-dead-zone semantics: reading a block-scoped const binding at a
program point before its declaration throws a ReferenceError. -/
def readPerf (k : JobKind) : Except JsErr Unit :=
  if perfUseLine k < perfDeclLine k then .error .referenceError else .ok ()

/-- A handler invoked directly by executeTask: its first statement reads
performance, then the rest of the body (abstracted as a parameter, since it
is unreachable when the read throws) runs. -/
def directHandlerOutcome (k : JobKind) (body : Except JsErr Unit) : Except JsErr Unit := do
  readPerf k
  body

/-- Awaiting a promise whose executor attaches only a fulfillment callback to
an inner computation: a rejection of the inner computation is dropped and the
promise never settles (modelled as none). -/
def awaitResolveOnly {α : Type} (r : Except JsErr α) : Option α :=
  match r with
  | .ok a => some a
  | .error _ => none

/-- handleExtractTSP first awaits the wrapped stipple handler; only if that
ever resolves does it proceed to its own timing call and body. -/
def tspHandlerOutcome (body : Except JsErr Unit) : Option (Except JsErr Unit) :=
  match awaitResolveOnly (directHandlerOutcome .extractStipple body) with
  | none => none
  | some _ => some (directHandlerOutcome .extractTSP body)

/-- The terminal event a submitted job of the given kind produces: executeTask
awaits the handler in try/catch, posting a result event on normal return and
an error event on a throw; none means the handler never settles and no
terminal event is ever posted. -/
def jobTerminalEvent (k : JobKind) (body : Except JsErr Unit) : Option TerminalEvent :=
  match k with
  | .extractTSP =>
      match tspHandlerOutcome body with
      | none => none
      | some (.ok _) => some .resultEvent
      | some (.error _) => some .errorEvent
  | _ =>
      match directHandlerOutcome k body with
      | .ok _ => some .resultEvent
      | .error _ => some .errorEvent

/-- C1 counterexample: a submitted extractTSP job does not terminate with an
error event as the claim states; it produces no terminal event at all,
because the stipple rejection is swallowed by a promise that only resolves on
success. -/
theorem C1_counterexample :
    jobTerminalEvent JobKind.extractTSP (Except.ok ()) = none ∧
    jobTerminalEvent JobKind.extractTSP (Except.ok ()) ≠ some TerminalEvent.errorEvent := by
  exact ⟨rfl, by decide⟩

/-- C1 (amended): in every handler the timing call at perfUseLine precedes the
block-scoped performance declaration at perfDeclLine, so the first timing call
throws a ReferenceError under temporal-dead-zone semantics; consequently no
job of any kind ever posts a result, every job of the five directly-run kinds
terminates with an error event, and an extractTSP job posts no terminal event
at all (it awaits forever a promise that drops the stipple rejection). -/
theorem C1_tdz_outcomes (k : JobKind) (body : Except JsErr Unit) :
    perfUseLine k < perfDeclLine k ∧
    jobTerminalEvent k body ≠ some TerminalEvent.resultEvent ∧
    (k ≠ JobKind.extractTSP → jobTerminalEvent k body = some TerminalEvent.errorEvent) ∧
    jobTerminalEvent JobKind.extractTSP body = none := by
  cases k <;> cases body <;> rename_i a <;> cases a <;> decide

/-- Witness for C1_tdz_outcomes at a concrete job kind and body. -/
theorem C1_tdz_outcomes_witness :
    jobTerminalEvent JobKind.solveEikonalCPU (Except.ok ()) = some TerminalEvent.errorEvent :=
  (C1_tdz_outcomes JobKind.solveEikonalCPU (Except.ok ())).2.2.1 (by decide)

/-! ### The worker pool scheduler (worker-pool.js)

The scheduler keeps a Map from task id to task (each task remembering its
owning worker) and a per-worker task counter.  cancelTask (lines 180 to 193)
posts a cancel message to the owning worker, deletes the task from the table,
and decrements the counter, all synchronously, without consulting any
worker-side state.  The reachedCheckpoint flag below is ghost state standing
for whether the worker has hit its first cooperative checkpoint; cancelTask
never reads it. -/

structure WorkerUnit where
  wid : ℕ
  taskCount : ℤ
  reachedCheckpoint : Bool
deriving DecidableEq

structure PoolState where
  activeTasks : List (ℕ × ℕ)
  workers : List WorkerUnit
  sentCancels : List (ℕ × ℕ)
deriving DecidableEq

/-- task.worker.taskCount-- : decrement the counter of the worker object the
task points at (worker ids are unique, so the map touches one worker). -/
def decTaskCount (ws : List WorkerUnit) (w : ℕ) : List WorkerUnit :=
  ws.map fun u => if u.wid = w then { u with taskCount := u.taskCount - 1 } else u

/-- cancelTask: look the task up; if absent do nothing; otherwise post a
cancel message to its worker, delete it from the active-task table
(Map.delete of a unique key, rendered as a filter), and decrement the
owning worker's task count. -/
def cancelTask (st : PoolState) (tid : ℕ) : PoolState :=
  match st.activeTasks.lookup tid with
  | none => st
  | some w =>
      { activeTasks := st.activeTasks.filter fun e => e.1 != tid
        workers := decTaskCount st.workers w
        sentCancels := st.sentCancels ++ [(w, tid)] }

/-- The task count currently recorded for worker w (0 if the pool has no such
worker). -/
def workerCount (st : PoolState) (w : ℕ) : ℤ :=
  ((st.workers.find? fun u => u.wid = w).map WorkerUnit.taskCount).getD 0

theorem lookup_filter_ne (l : List (ℕ × ℕ)) (tid : ℕ) :
    (l.filter fun e => e.1 != tid).lookup tid = none := by
  induction l with
  | nil => rfl
  | cons a l ih =>
      rcases a with ⟨k, v⟩
      rw [List.filter_cons]
      by_cases h : k = tid
      · have hb : ((k, v).1 != tid) = false := by simp [h]
        rw [hb, if_neg (by simp)]
        exact ih
      · have hb : ((k, v).1 != tid) = true := by simp [h]
        rw [hb, if_pos rfl, List.lookup]
        have hne : (tid == k) = false := by simp [Ne.symm h]
        rw [hne]
        exact ih

theorem find?_decTaskCount (ws : List WorkerUnit) (w : ℕ) :
    (decTaskCount ws w).find? (fun u => u.wid = w) =
      ((ws.find? fun u => u.wid = w).map
        fun u => { u with taskCount := u.taskCount - 1 }) := by
  induction ws with
  | nil => rfl
  | cons u ws ih =>
      by_cases h : u.wid = w
      · simp [decTaskCount, List.find?, h]
      · simpa [decTaskCount, List.find?, h] using ih

theorem map_checkpoint_decTaskCount (ws : List WorkerUnit) (w : ℕ) :
    (decTaskCount ws w).map WorkerUnit.reachedCheckpoint =
      ws.map WorkerUnit.reachedCheckpoint := by
  induction ws with
  | nil => rfl
  | cons u ws ih =>
      by_cases h : u.wid = w <;> simp [decTaskCount, h] at ih ⊢ <;> exact ih

/-- C10: for a task present in the active-task table and owned by worker w,
cancelTask immediately removes the task from the table and decrements w's
task count, and it leaves every worker's checkpoint state untouched: the
bookkeeping is released synchronously, without waiting for the unit to
acknowledge, whatever the units' cooperative progress is. -/
theorem C10_cancel_immediate (st : PoolState) (tid w : ℕ)
    (hlook : st.activeTasks.lookup tid = some w)
    (hw : (st.workers.find? fun u => u.wid = w).isSome = true) :
    (cancelTask st tid).activeTasks.lookup tid = none ∧
    workerCount (cancelTask st tid) w = workerCount st w - 1 ∧
    (cancelTask st tid).workers.map WorkerUnit.reachedCheckpoint =
      st.workers.map WorkerUnit.reachedCheckpoint ∧
    (cancelTask st tid).sentCancels = st.sentCancels ++ [(w, tid)] := by
  obtain ⟨u, hu⟩ := Option.isSome_iff_exists.mp hw
  refine ⟨?_, ?_, ?_, ?_⟩
  · simp [cancelTask, hlook, lookup_filter_ne]
  · simp [cancelTask, hlook, workerCount, find?_decTaskCount, hu]
  · simp [cancelTask, hlook, map_checkpoint_decTaskCount]
  · simp [cancelTask, hlook]

/-- Witness for C10_cancel_immediate on a one-task, one-worker pool whose
worker has not yet reached any checkpoint. -/
theorem C10_cancel_immediate_witness :
    (cancelTask ⟨[(7, 0)], [⟨0, 1, false⟩], []⟩ 7).activeTasks.lookup 7 = none ∧
    workerCount (cancelTask ⟨[(7, 0)], [⟨0, 1, false⟩], []⟩ 7) 0 =
      workerCount ⟨[(7, 0)], [⟨0, 1, false⟩], []⟩ 0 - 1 := by
  have h := C10_cancel_immediate ⟨[(7, 0)], [⟨0, 1, false⟩], []⟩ 7 0 (by decide) (by decide)
  exact ⟨h.1, h.2.1⟩

/-! ### Contour level generation (worker.js, generateAdaptiveLevels) -/

/-- The level loop: for (let l = min + interval; l < max; l += interval)
levels.push(l).  The fuel argument bounds the number of iterations; the loop
body pushes and advances exactly as the source does, so for any fuel the
result is a prefix of the full JS iteration, and with enough fuel it is all
of it. -/
def levelsFrom (interval maxV : ℚ) : ℚ → ℕ → List ℚ
  | _, 0 => []
  | l, fuel+1 => if l < maxV then l :: levelsFrom interval maxV (l + interval) fuel else []

/-- generateAdaptiveLevels (worker.js lines 937 to 952).  The caller scans the
field and passes min and max in; the claims under scrutiny assume both are
finite, so they are plain rationals here (the source returns [] when min or
max is still an infinite sentinel).  The source also computes a targetLevels
variable that it never uses; it is omitted.  solution, width, height, gradMag
and detailLevel are accepted and ignored exactly as the source ignores
them. -/
def generateAdaptiveLevels (_solution : List JVal) (_width _height : ℕ)
    (interval minV maxV : ℚ) (_gradMag : List ℚ) (_detailLevel : ℚ)
    (fuel : ℕ) : List ℚ :=
  if maxV - minV < 1/1000 then [minV + (maxV - minV) / 2]
  else levelsFrom interval maxV (minV + interval) fuel

/-- C5 counterexample: the field [0, 1] has finite min 0 and max 1, a range of
1 which is not degenerate (at least 1/1000), and the interval 2 is positive,
yet level generation produces no level at all, refuting the claim that every
positive interval, including intervals larger than the range, yields at least
one level. -/
theorem C5_counterexample :
    (0:ℚ) < 2 ∧ (1/1000:ℚ) ≤ 1 - 0 ∧
    generateAdaptiveLevels [some 0, some 1] 2 1 2 0 1 [] 0 5 = [] := by
  refine ⟨by norm_num, by norm_num, ?_⟩
  with_unfolding_all rfl

/-- C5 (amended): with finite min and max, level generation yields exactly the
single mid-value level when the range is narrower than 1/1000; when the range
is at least 1/1000 it yields at least one level exactly when the interval is
strictly smaller than the range (given at least one loop iteration of fuel),
and it yields no level at all when the interval is at least the range. -/
theorem C5_level_generation (solution : List JVal) (w h : ℕ)
    (interval minV maxV : ℚ) (g : List ℚ) (d : ℚ) (fuel : ℕ) :
    (maxV - minV < 1/1000 →
      generateAdaptiveLevels solution w h interval minV maxV g d fuel =
        [minV + (maxV - minV) / 2]) ∧
    (1/1000 ≤ maxV - minV → interval < maxV - minV → 1 ≤ fuel →
      1 ≤ (generateAdaptiveLevels solution w h interval minV maxV g d fuel).length) ∧
    (1/1000 ≤ maxV - minV → maxV - minV ≤ interval →
      generateAdaptiveLevels solution w h interval minV maxV g d fuel = []) := by
  refine ⟨fun hlt => ?_, fun hge hint hfuel => ?_, fun hge hint => ?_⟩
  · unfold generateAdaptiveLevels
    rw [if_pos hlt]
  · have hnot : ¬ (maxV - minV < 1/1000) := not_lt.mpr hge
    unfold generateAdaptiveLevels
    rw [if_neg hnot]
    cases fuel with
    | zero => omega
    | succ n =>
        have hstep : minV + interval < maxV := by linarith
        rw [levelsFrom, if_pos hstep]
        simp
  · have hnot : ¬ (maxV - minV < 1/1000) := not_lt.mpr hge
    have hstep : ¬ (minV + interval < maxV) := by
      intro hc
      linarith
    unfold generateAdaptiveLevels
    rw [if_neg hnot]
    cases fuel with
    | zero => rfl
    | succ n => rw [levelsFrom, if_neg hstep]

/-- Witness for C5_level_generation at concrete degenerate, productive, and
empty-producing inputs. -/
theorem C5_level_generation_witness :
    generateAdaptiveLevels [] 0 0 1 0 (1/2000) [] 0 3 = [0 + (1/2000 - 0) / 2] ∧
    1 ≤ (generateAdaptiveLevels [] 0 0 (1/2) 0 2 [] 0 3).length ∧
    generateAdaptiveLevels [] 0 0 3 0 2 [] 0 3 = [] := by
  refine ⟨(C5_level_generation [] 0 0 1 0 (1/2000) [] 0 3).1 (by norm_num),
    (C5_level_generation [] 0 0 (1/2) 0 2 [] 0 3).2.1 (by norm_num) (by norm_num) (by norm_num),
    (C5_level_generation [] 0 0 3 0 2 [] 0 3).2.2 (by norm_num) (by norm_num)⟩

/-! ### Marching squares cell classification (worker.js, handleExtractContoursAdaptive) -/

structure Seg where
  x1 : ℚ
  y1 : ℚ
  x2 : ℚ
  y2 : ℚ
deriving DecidableEq

/-- interp (worker.js lines 345 to 350): linear interpolation fraction of the
level between two corner values, defaulting to 1/2 at an infinite corner or a
nearly flat edge, clamped to [0, 1]. -/
def interp (v1 v2 : JVal) (level : ℚ) : ℚ :=
  match v1, v2 with
  | some a, some b =>
      let diff := b - a
      if |diff| < 1/100000 then 1/2
      else max 0 (min 1 ((level - a) / diff))
  | _, _ => 1/2

/-- addLine in the plain (non edge-guided) path, worker.js line 380, which
uses y2 for both endpoints' y offsets (the slip the spec's design notes
flag); reproduced faithfully. -/
def addLinePlain (x y : ℕ) (xa _ya xb yb : ℚ) : Seg :=
  { x1 := (x:ℚ) + xa, y1 := (y:ℚ) + yb, x2 := (x:ℚ) + xb, y2 := (y:ℚ) + yb }

/-- The 4-bit corner code (worker.js lines 366 to 370): bit set when the
corner value is at least the level (an infinite corner counts as above). -/
def cornerCode (v00 v10 v01 v11 : JVal) (level : ℚ) : ℕ :=
  (if (level : JVal) ≤ v00 then 1 else 0) +
  (if (level : JVal) ≤ v10 then 2 else 0) +
  (if (level : JVal) ≤ v01 then 4 else 0) +
  (if (level : JVal) ≤ v11 then 8 else 0)

/-- The switch over the corner code (worker.js lines 384 to 410), emitting the
addLine calls of each case in order; codes 0 and 15 fall through to no
lines. -/
def segsForCode (x y : ℕ) (v00 v10 v01 v11 : JVal) (level : ℚ) : ℕ → List Seg
  | 1 | 14 => [addLinePlain x y 0 (interp v00 v10 level) (1/2) 0]
  | 2 | 13 => [addLinePlain x y (1/2) 0 1 (interp v10 v11 level)]
  | 3 | 12 => [addLinePlain x y 0 (interp v00 v10 level) 1 (interp v01 v11 level)]
  | 4 | 11 => [addLinePlain x y (1/2) 1 (interp v01 v11 level) 1]
  | 5 => [addLinePlain x y 0 (interp v00 v10 level) (1/2) 1,
          addLinePlain x y (1/2) 0 (interp v01 v11 level) 1]
  | 6 | 9 => [addLinePlain x y (1/2) 0 (1/2) 1]
  | 7 | 8 => [addLinePlain x y 0 (interp v00 v10 level) (1/2) 1,
              addLinePlain x y (1/2) 0 1 (interp v10 v11 level)]
  | 10 => [addLinePlain x y 0 (interp v00 v10 level) 1 (interp v01 v11 level),
           addLinePlain x y (1/2) 0 (1/2) 1]
  | _ => []

/-- The lines one 2x2 cell block contributes at a level. -/
def cellLines (x y : ℕ) (v00 v10 v01 v11 : JVal) (level : ℚ) : List Seg :=
  segsForCode x y v00 v10 v01 v11 level (cornerCode v00 v10 v01 v11 level)

/-- Segment count the extractor actually emits per corner code: zero for empty
and full cells, two for the saddle codes 5 and 10 and for the three-corner
codes 7 and 8, one for every other code. -/
def emittedCount : ℕ → ℕ
  | 0 | 15 => 0
  | 5 | 7 | 8 | 10 => 2
  | 1 | 2 | 3 | 4 | 6 | 9 | 11 | 12 | 13 | 14 => 1
  | _ => 0

theorem cornerCode_le_15 (v00 v10 v01 v11 : JVal) (level : ℚ) :
    cornerCode v00 v10 v01 v11 level ≤ 15 := by
  unfold cornerCode
  split <;> split <;> split <;> split <;> norm_num

theorem segsForCode_length (x y : ℕ) (v00 v10 v01 v11 : JVal) (level : ℚ)
    (c : ℕ) (hc : c ≤ 15) :
    (segsForCode x y v00 v10 v01 v11 level c).length = emittedCount c := by
  interval_cases c <;> rfl

/-- C4 counterexample: the block with corners 1, 1, 1, 0 and level 1/2 has
corner code 7, which is not one of the saddle codes 5 and 10, yet the
extractor emits two segments for it, not the single segment the standard
case table prescribes. -/
theorem C4_counterexample :
    cornerCode (some 1) (some 1) (some 1) (some 0) (1/2) = 7 ∧
    (cellLines 0 0 (some 1) (some 1) (some 1) (some 0) (1/2)).length = 2 ∧
    (cellLines 0 0 (some 1) (some 1) (some 1) (some 0) (1/2)).length ≠ 1 := by
  refine ⟨by with_unfolding_all rfl, by with_unfolding_all rfl,
    of_decide_eq_false (by with_unfolding_all rfl)⟩

/-- C4 (amended): for every 2x2 cell block and level the extractor emits
exactly emittedCount (cornerCode ...) segments: zero for codes 0 and 15, two
for the saddle codes 5 and 10 but also for the codes 7 and 8, and one for
every other code; in particular, for corners 0, 0, 1, 1 with a level strictly
between (code 12) it emits exactly one segment. -/
theorem C4_case_table (x y : ℕ) (v00 v10 v01 v11 : JVal) (level : ℚ) :
    (cellLines x y v00 v10 v01 v11 level).length =
      emittedCount (cornerCode v00 v10 v01 v11 level) ∧
    (cellLines x y (some 0) (some 0) (some 1) (some 1) (1/2)).length = 1 ∧
    (cellLines x y (some 0) (some 0) (some 0) (some 0) (1/2)).length = 0 ∧
    (cellLines x y (some 1) (some 1) (some 1) (some 1) (1/2)).length = 0 := by
  have h12 : cornerCode (some 0) (some 0) (some 1) (some 1) (1/2) = 12 := by
    with_unfolding_all rfl
  have h0 : cornerCode (some 0) (some 0) (some 0) (some 0) (1/2) = 0 := by
    with_unfolding_all rfl
  have h15 : cornerCode (some 1) (some 1) (some 1) (some 1) (1/2) = 15 := by
    with_unfolding_all rfl
  refine ⟨?_, ?_, ?_, ?_⟩
  · exact segsForCode_length x y v00 v10 v01 v11 level _
      (cornerCode_le_15 v00 v10 v01 v11 level)
  · unfold cellLines
    rw [h12]
    rfl
  · unfold cellLines
    rw [h0]
    rfl
  · unfold cellLines
    rw [h15]
    rfl

/-! ### The Fast Marching solver (worker.js, handleSolveEikonalCPU)

The solver state mirrors the source: the Float32Array solution (Infinity
modelled as the top of JVal), the Uint8Array visited flags, and the array of
heap entries.  A ghost write log records every assignment
solution[nIdx] = newValue the relaxation performs, with the value the cell
held before; it is appended exactly where the source assigns and changes
nothing else.  Indexing is row major, idx (x, y) = y * width + x.  List
accesses use getD with the sentinel default; the theorems below are stated
for well-formed inputs where the defaults are never consulted.  The periodic
progress/cancellation checkpoint mutates none of this state and is omitted. -/

structure HeapItem where
  x : ℕ
  y : ℕ
  value : ℚ
deriving DecidableEq

instance : Inhabited HeapItem := ⟨⟨0, 0, 0⟩⟩

/-- The sift-up loop of heapPush (worker.js lines 183 to 192): bubble the item
at index i up while its parent has a strictly larger value. -/
def siftUp (heap : List HeapItem) (i : ℕ) : List HeapItem :=
  if h : i = 0 then heap
  else
    let p := (i - 1) / 2
    let hp := heap.getD p default
    let hi := heap.getD i default
    if hp.value ≤ hi.value then heap
    else siftUp ((heap.set p hi).set i hp) p
termination_by i
decreasing_by
  omega

/-- heapPush: append, then sift the new last element up. -/
def heapPush (heap : List HeapItem) (item : HeapItem) : List HeapItem :=
  siftUp (heap ++ [item]) heap.length

/-- The sift-down loop of heapPop (worker.js lines 200 to 214).  The source
loop runs while a child improves; the index moves strictly down the array, so
running it with fuel equal to the array length is exact. -/
def siftDown : List HeapItem → ℕ → ℕ → List HeapItem
  | heap, _, 0 => heap
  | heap, i, fuel+1 =>
      let s1 := if 2*i+1 < heap.length ∧
          (heap.getD (2*i+1) default).value < (heap.getD i default).value then 2*i+1 else i
      let s2 := if 2*i+2 < heap.length ∧
          (heap.getD (2*i+2) default).value < (heap.getD s1 default).value then 2*i+2 else s1
      if s2 = i then heap
      else siftDown ((heap.set i (heap.getD s2 default)).set s2 (heap.getD i default)) s2 fuel

/-- heapPop (worker.js lines 194 to 217): take the root, move the last element
to the root, and sift it down. -/
def heapPop (heap : List HeapItem) : Option HeapItem × List HeapItem :=
  match heap with
  | [] => (none, [])
  | top :: _ =>
      let last := (heap.getLast?).getD default
      let rest := heap.dropLast
      if 0 < rest.length then (some top, siftDown (rest.set 0 last) 0 rest.length)
      else (some top, rest)

structure WriteRec where
  cell : ℕ
  oldVal : JVal
  newVal : ℚ
deriving DecidableEq

structure SolveState where
  sol : List JVal
  visited : List Bool
  heap : List HeapItem
  log : List WriteRec
deriving DecidableEq

/-- safeGet (worker.js lines 164 to 168): out-of-bounds, undefined, NaN and
non-finite entries all read as Infinity. -/
def safeGet (sol : List JVal) (width height : ℕ) (x y : ℤ) : JVal :=
  if x < 0 ∨ (width:ℤ) ≤ x ∨ y < 0 ∨ (height:ℤ) ≤ y then ⊤
  else sol.getD (y.toNat * width + x.toNat) ⊤

/-- The source collects the finite values among two reads into an array and
takes Math.min, with Infinity for an empty array (lines 249 to 258); that is
the minimum in JVal computed by cases on finiteness. -/
def finiteMin (a b : JVal) : JVal :=
  match a, b with
  | some p, some q => some (min p q)
  | some p, ⊤ => some p
  | ⊤, some q => some q
  | ⊤, ⊤ => ⊤

/-- The both-axes-finite update (worker.js lines 269 to 281): degenerate to
lo + speed when the axes differ by at least the cost, otherwise solve the
quadratic, falling back on a negative discriminant. -/
def upwindBothFinite (sqrt : ℚ → ℚ) (mx my speed : ℚ) : ℚ :=
  let lo := min mx my
  let hi := max mx my
  if speed ≤ hi - lo then lo + speed
  else
    let disc := 2*speed*speed - (hi - lo)*(hi - lo)
    if disc < 0 then lo + speed
    else (lo + hi + sqrt disc) / 2

/-- The tentative value for a neighbor (worker.js lines 260 to 282): none when
both axes are infinite (the continue), the single-axis sum otherwise, the
quadratic update when both are finite. -/
def tentative (sqrt : ℚ → ℚ) (minX minY : JVal) (speed : ℚ) : Option ℚ :=
  match minX, minY with
  | ⊤, ⊤ => none
  | ⊤, some my => some (my + speed)
  | some mx, ⊤ => some (mx + speed)
  | some mx, some my => some (upwindBothFinite sqrt mx my speed)

/-- The tentative value the code computes when relaxing any neighbor of the
popped cell (cx, cy): the stencil reads the four neighbors of (cx, cy)
itself (worker.js lines 244 to 247), not of the neighbor being updated. -/
def codeTentativeAt (sqrt : ℚ → ℚ) (sol : List JVal) (width height : ℕ)
    (cx cy : ℤ) (speed : ℚ) : Option ℚ :=
  tentative sqrt
    (finiteMin (safeGet sol width height (cx - 1) cy) (safeGet sol width height (cx + 1) cy))
    (finiteMin (safeGet sol width height cx (cy - 1)) (safeGet sol width height cx (cy + 1)))
    speed

/-- Relax one neighbor nb of the popped cell (cx, cy) (worker.js lines 238 to
288): skip out-of-bounds or visited neighbors, compute the tentative value
with grayscale cost at the neighbor, and on improvement write it, push a heap
entry, and append a ghost log record. -/
def relaxNeighbor (sqrt : ℚ → ℚ) (gray : List ℚ) (width height : ℕ)
    (cx cy : ℤ) (st : SolveState) (nb : ℤ × ℤ) : SolveState :=
  if nb.1 < 0 ∨ (width:ℤ) ≤ nb.1 ∨ nb.2 < 0 ∨ (height:ℤ) ≤ nb.2 then st
  else
    let nIdx := nb.2.toNat * width + nb.1.toNat
    if st.visited.getD nIdx false then st
    else
      match codeTentativeAt sqrt st.sol width height cx cy (gray.getD nIdx 0) with
      | none => st
      | some nv =>
          let old := st.sol.getD nIdx ⊤
          if (nv : JVal) < old then
            { sol := st.sol.set nIdx (some nv)
              visited := st.visited
              heap := heapPush st.heap ⟨nb.1.toNat, nb.2.toNat, nv⟩
              log := st.log ++ [⟨nIdx, old, nv⟩] }
          else st

/-- Process a popped cell: mark it visited, then relax its four neighbors in
source order (left, right, up, down), threading the state so later stencils
see earlier writes exactly as the source does. -/
def processCurrent (sqrt : ℚ → ℚ) (gray : List ℚ) (width height : ℕ)
    (cur : HeapItem) (st : SolveState) : SolveState :=
  let cx : ℤ := cur.x
  let cy : ℤ := cur.y
  [(cx - 1, cy), (cx + 1, cy), (cx, cy - 1), (cx, cy + 1)].foldl
    (relaxNeighbor sqrt gray width height cx cy)
    { st with visited := st.visited.set (cur.y * width + cur.x) true }

/-- The main Fast Marching loop (worker.js lines 224 to 303), with fuel; the
source runs until the heap empties, which the none branch mirrors. -/
def fmmLoop (sqrt : ℚ → ℚ) (gray : List ℚ) (width height : ℕ) :
    SolveState → ℕ → SolveState
  | st, 0 => st
  | st, fuel+1 =>
      match heapPop st.heap with
      | (none, _) => st
      | (some cur, rest) =>
          fmmLoop sqrt gray width height
            (processCurrent sqrt gray width height cur { st with heap := rest }) fuel

/-- One step of the seed initialization loop (worker.js lines 171 to 180):
a cell below threshold gets distance 0, is marked visited, and is pushed
(plain push, no sift) onto the heap. -/
def seedStep (gray : List ℚ) (width : ℕ) (threshold : ℚ)
    (st : SolveState) (i : ℕ) : SolveState :=
  if gray.getD i 1 < threshold then
    { sol := st.sol.set i (some 0)
      visited := st.visited.set i true
      heap := st.heap ++ [⟨i % width, i / width, 0⟩]
      log := st.log }
  else st

/-- The initial state: solution filled with Infinity, nothing visited, then
the row-major seed scan. -/
def initSeeds (gray : List ℚ) (width height : ℕ) (threshold : ℚ) : SolveState :=
  (List.range (width * height)).foldl (seedStep gray width threshold)
    { sol := List.replicate (width * height) ⊤
      visited := List.replicate (width * height) false
      heap := []
      log := [] }

/-- handleSolveEikonalCPU from initialization to loop exit. -/
def solveEikonal (sqrt : ℚ → ℚ) (gray : List ℚ) (width height : ℕ)
    (threshold : ℚ) (fuel : ℕ) : SolveState :=
  fmmLoop sqrt gray width height (initSeeds gray width height threshold) fuel

/-! #### List helper lemmas -/

theorem getD_set_self {α : Type} (l : List α) (i : ℕ) (a d : α) (h : i < l.length) :
    (l.set i a).getD i d = a := by
  rw [List.getD_eq_getElem?_getD, List.getElem?_set_eq_of_lt a h]
  rfl

theorem getD_set_ne {α : Type} (l : List α) (i j : ℕ) (a d : α) (h : j ≠ i) :
    (l.set i a).getD j d = l.getD j d := by
  rw [List.getD_eq_getElem?_getD, List.getElem?_set_ne (Ne.symm h),
    List.getD_eq_getElem?_getD]

theorem getD_set_true {l : List Bool} {i : ℕ} (j : ℕ)
    (h : l.getD j false = true) : (l.set i true).getD j false = true := by
  by_cases hij : j = i
  · subst hij
    by_cases hlen : j < l.length
    · rw [getD_set_self _ _ _ _ hlen]
    · rw [List.set_eq_of_length_le (by omega)]
      exact h
  · rw [getD_set_ne _ _ _ _ _ hij]
    exact h

theorem foldl_preserve {α β : Type} (f : α → β → α) (P : α → Prop)
    (hf : ∀ a b, P a → P (f a b)) :
    ∀ (l : List β) (a : α), P a → P (l.foldl f a) := by
  intro l
  induction l with
  | nil => intro a ha; exact ha
  | cons b l ih =>
      intro a ha
      exact ih _ (hf a b ha)

/-! #### Invariants of the solver run -/

/-- The property C2 tracks for one seed cell: distance 0 and visited. -/
def SeedProp (i : ℕ) (st : SolveState) : Prop :=
  st.sol.getD i ⊤ = some 0 ∧ st.visited.getD i false = true

theorem relaxNeighbor_seedProp (sqrt : ℚ → ℚ) (gray : List ℚ) (width height : ℕ)
    (cx cy : ℤ) (nb : ℤ × ℤ) (i : ℕ) (st : SolveState) (h : SeedProp i st) :
    SeedProp i (relaxNeighbor sqrt gray width height cx cy st nb) := by
  unfold relaxNeighbor
  split
  · exact h
  · dsimp only
    split
    · exact h
    next hvis =>
      cases hc : codeTentativeAt sqrt st.sol width height cx cy
          (gray.getD (nb.2.toNat * width + nb.1.toNat) 0) with
      | none => exact h
      | some nv =>
          dsimp only
          split
          · have hne : i ≠ nb.2.toNat * width + nb.1.toNat := by
              intro heq
              rw [heq] at h
              rw [h.2] at hvis
              exact hvis rfl
            exact ⟨by rw [getD_set_ne _ _ _ _ _ hne]; exact h.1, h.2⟩
          · exact h

theorem processCurrent_seedProp (sqrt : ℚ → ℚ) (gray : List ℚ) (width height : ℕ)
    (cur : HeapItem) (i : ℕ) (st : SolveState) (h : SeedProp i st) :
    SeedProp i (processCurrent sqrt gray width height cur st) := by
  unfold processCurrent
  refine foldl_preserve _ (SeedProp i) ?_ _ _ ?_
  · intro a b ha
    exact relaxNeighbor_seedProp sqrt gray width height _ _ _ i a ha
  · exact ⟨h.1, getD_set_true _ h.2⟩

theorem fmmLoop_seedProp (sqrt : ℚ → ℚ) (gray : List ℚ) (width height : ℕ)
    (i : ℕ) : ∀ (fuel : ℕ) (st : SolveState), SeedProp i st →
    SeedProp i (fmmLoop sqrt gray width height st fuel) := by
  intro fuel
  induction fuel with
  | zero => intro st h; exact h
  | succ n ih =>
      intro st h
      unfold fmmLoop
      cases hpop : heapPop st.heap with
      | mk cur rest =>
          cases cur with
          | none => exact h
          | some c =>
              exact ih _ (processCurrent_seedProp sqrt gray width height c i _ ⟨h.1, h.2⟩)

theorem seedFold_invariant (gray : List ℚ) (width height : ℕ) (threshold : ℚ) :
    ∀ n : ℕ,
      (((List.range n).foldl (seedStep gray width threshold)
        { sol := List.replicate (width * height) ⊤
          visited := List.replicate (width * height) false
          heap := []
          log := [] }).sol.length = width * height) ∧
      (((List.range n).foldl (seedStep gray width threshold)
        { sol := List.replicate (width * height) ⊤
          visited := List.replicate (width * height) false
          heap := []
          log := [] }).visited.length = width * height) ∧
      ∀ j, j < n → j < width * height → gray.getD j 1 < threshold →
        SeedProp j ((List.range n).foldl (seedStep gray width threshold)
          { sol := List.replicate (width * height) ⊤
            visited := List.replicate (width * height) false
            heap := []
            log := [] }) := by
  intro n
  induction n with
  | zero =>
      refine ⟨by simp, by simp, ?_⟩
      intro j hj
      omega
  | succ n ih =>
      obtain ⟨hsl, hvl, hseeds⟩ := ih
      rw [List.range_succ, List.foldl_append, List.foldl_cons, List.foldl_nil]
      set s := (List.range n).foldl (seedStep gray width threshold)
        { sol := List.replicate (width * height) ⊤
          visited := List.replicate (width * height) false
          heap := ([] : List HeapItem)
          log := ([] : List WriteRec) } with hs
      constructor
      · unfold seedStep
        split <;> simp [hsl]
      constructor
      · unfold seedStep
        split <;> simp [hvl]
      intro j hj hjsize hcond
      by_cases hjn : j = n
      · subst hjn
        unfold seedStep
        rw [if_pos hcond]
        exact ⟨getD_set_self _ _ _ _ (by rw [hsl]; omega),
          getD_set_self _ _ _ _ (by rw [hvl]; omega)⟩
      · have hjlt : j < n := by omega
        have hprev := hseeds j hjlt hjsize hcond
        unfold seedStep
        split
        · exact ⟨by rw [getD_set_ne _ _ _ _ _ hjn]; exact hprev.1,
            by rw [getD_set_ne _ _ _ _ _ hjn]; exact hprev.2⟩
        · exact hprev

theorem initSeeds_seedProp (gray : List ℚ) (width height : ℕ) (threshold : ℚ)
    (i : ℕ) (hi : i < width * height) (hseed : gray.getD i 1 < threshold) :
    SeedProp i (initSeeds gray width height threshold) :=
  (seedFold_invariant gray width height threshold (width * height)).2.2 i hi hi hseed

/-- C2: every seed cell (grayscale strictly below the threshold) holds
distance exactly 0 in the solver output, whatever the speed model, the fuel,
and the rest of the field: seeds are initialized to 0 and marked visited, and
the relaxation writes only to unvisited cells, so no later update ever
touches a seed. -/
theorem C2_seed_cells_zero (sqrt : ℚ → ℚ) (gray : List ℚ) (width height : ℕ)
    (threshold : ℚ) (fuel : ℕ) (i : ℕ)
    (hi : i < width * height) (hseed : gray.getD i 1 < threshold) :
    (solveEikonal sqrt gray width height threshold fuel).sol.getD i ⊤ = some 0 :=
  (fmmLoop_seedProp sqrt gray width height i fuel _
    (initSeeds_seedProp gray width height threshold i hi hseed)).1

/-- Witness for C2 on a concrete 2x1 field whose left cell is a seed. -/
theorem C2_seed_cells_zero_witness :
    (solveEikonal ratSqrt [0, 1] 2 1 (1/2) 5).sol.getD 0 ⊤ = some 0 :=
  C2_seed_cells_zero ratSqrt [0, 1] 2 1 (1/2) 5 0 (by norm_num)
    (of_decide_eq_true (by with_unfolding_all rfl))

/-! #### Direction of the tentative writes (C6) -/

/-- Every record in the ghost write log stored a value strictly below the
value the cell held before the write. -/
def LogDecreasing (st : SolveState) : Prop :=
  ∀ e ∈ st.log, (e.newVal : JVal) < e.oldVal

theorem relaxNeighbor_logDecreasing (sqrt : ℚ → ℚ) (gray : List ℚ)
    (width height : ℕ) (cx cy : ℤ) (nb : ℤ × ℤ) (st : SolveState)
    (h : LogDecreasing st) :
    LogDecreasing (relaxNeighbor sqrt gray width height cx cy st nb) := by
  unfold relaxNeighbor
  split
  · exact h
  · dsimp only
    split
    · exact h
    · cases hc : codeTentativeAt sqrt st.sol width height cx cy
          (gray.getD (nb.2.toNat * width + nb.1.toNat) 0) with
      | none => exact h
      | some nv =>
          dsimp only
          split
          next hlt =>
            intro e he
            rcases List.mem_append.mp he with h1 | h2
            · exact h e h1
            · rw [List.mem_singleton.mp h2]
              exact hlt
          · exact h

theorem processCurrent_logDecreasing (sqrt : ℚ → ℚ) (gray : List ℚ)
    (width height : ℕ) (cur : HeapItem) (st : SolveState) (h : LogDecreasing st) :
    LogDecreasing (processCurrent sqrt gray width height cur st) := by
  unfold processCurrent
  refine foldl_preserve _ LogDecreasing ?_ _ _ ?_
  · intro a b ha
    exact relaxNeighbor_logDecreasing sqrt gray width height _ _ _ a ha
  · intro e he
    exact h e he

theorem fmmLoop_logDecreasing (sqrt : ℚ → ℚ) (gray : List ℚ) (width height : ℕ) :
    ∀ (fuel : ℕ) (st : SolveState), LogDecreasing st →
      LogDecreasing (fmmLoop sqrt gray width height st fuel) := by
  intro fuel
  induction fuel with
  | zero => intro st h; exact h
  | succ n ih =>
      intro st h
      unfold fmmLoop
      cases heapPop st.heap with
      | mk cur rest =>
          cases cur with
          | none => exact h
          | some c =>
              refine ih _ (processCurrent_logDecreasing sqrt gray width height c _ ?_)
              intro e he
              exact h e he

theorem initSeeds_log (gray : List ℚ) (width height : ℕ) (threshold : ℚ) :
    (initSeeds gray width height threshold).log = [] := by
  unfold initSeeds
  refine foldl_preserve _ (fun st : SolveState => st.log = []) ?_ _ _ rfl
  intro a b ha
  unfold seedStep
  split
  · exact ha
  · exact ha

/-- C6 (amended): during a solver run every post-initialization write to a
cell stores a value strictly below the value the cell held before it: the
assignment is guarded by newValue < solution[nIdx], so tentative distances
are monotonically non-increasing per cell, not non-decreasing as claimed. -/
theorem C6_writes_strictly_decrease (sqrt : ℚ → ℚ) (gray : List ℚ)
    (width height : ℕ) (threshold : ℚ) (fuel : ℕ) :
    ∀ e ∈ (solveEikonal sqrt gray width height threshold fuel).log,
      (e.newVal : JVal) < e.oldVal := by
  apply fmmLoop_logDecreasing
  intro e he
  rw [initSeeds_log] at he
  exact absurd he (List.not_mem_nil e)

/-- C6 counterexample: on the 3x1 field [0, 0, 1/2] with threshold 1/4 the
run performs exactly one write, storing 1/2 into cell 2 which held Infinity,
and Infinity is not less than or equal to 1/2: the write is a strict
decrease, refuting the claim that every write stores a value greater than or
equal to the value the cell held before. -/
theorem C6_counterexample :
    (solveEikonal ratSqrt [0, 0, 1/2] 3 1 (1/4) 10).log =
      [⟨2, ⊤, 1/2⟩] ∧
    ¬ ((⊤ : JVal) ≤ ((1/2 : ℚ) : JVal)) := by
  constructor
  · with_unfolding_all rfl
  · simp

/-- Witness for C6_writes_strictly_decrease at the concrete 3x1 run. -/
theorem C6_writes_strictly_decrease_witness :
    (((1/2 : ℚ) : JVal) < (⊤ : JVal)) := by
  have hlog : (solveEikonal ratSqrt [0, 0, 1/2] 3 1 (1/4) 10).log =
      [⟨2, ⊤, 1/2⟩] := by
    with_unfolding_all rfl
  exact C6_writes_strictly_decrease ratSqrt [0, 0, 1/2] 3 1 (1/4) 10
    ⟨2, ⊤, 1/2⟩ (by rw [hlog]; exact List.mem_singleton.mpr rfl)

/-! #### The upwind stencil location (C3) -/

/-- Modelled from the spec (section 4.2): the upwind update when both axes
are finite, exactly as the spec words it: lo = min(minX, minY),
hi = max(minX, minY); if hi - lo >= speed_cost the update degenerates to
lo + speed_cost; otherwise discriminant = 2 speed_cost^2 - (hi - lo)^2, with
fallback to lo + speed_cost when the discriminant is negative, else
(lo + hi + sqrt discriminant) / 2. -/
def specUpwindFormula (sqrt : ℚ → ℚ) (minX minY speed : ℚ) : ℚ :=
  let lo := min minX minY
  let hi := max minX minY
  if hi - lo ≥ speed then lo + speed
  else
    let discriminant := 2*speed*speed - (hi - lo)*(hi - lo)
    if discriminant < 0 then lo + speed
    else (lo + hi + sqrt discriminant) / 2

/-- Modelled from the claim: minX is the minimum of the finite horizontal
neighbor distances of a given cell (here: the cell being updated). -/
def specMinXAt (sol : List JVal) (width height : ℕ) (x y : ℤ) : JVal :=
  finiteMin (safeGet sol width height (x - 1) y) (safeGet sol width height (x + 1) y)

/-- Modelled from the claim: the vertical analogue of specMinXAt. -/
def specMinYAt (sol : List JVal) (width height : ℕ) (x y : ℤ) : JVal :=
  finiteMin (safeGet sol width height x (y - 1)) (safeGet sol width height x (y + 1))

/-- A 3x3 solution state (row major): cell (0,1) holds 0, cells (1,0) and
(1,1) hold 1/2, cell (2,0) holds 1/10, the rest are Infinity. -/
def solC3 : List JVal :=
  [⊤, some (1/2), some (1/10), some 0, some (1/2), ⊤, ⊤, ⊤, ⊤]

/-- C3 counterexample: relaxing the neighbor (2,1) of the popped cell (1,1)
with speed cost 1/5, both axes are finite in the code's stencil at (1,1)
(minX = 0, minY = 1/2) and also in the spec's stencil at the updated cell
(2,1) (minX = 1/2, minY = 1/10); the code computes 1/5 while the spec's
upwind scheme applied to the neighbor cell gives 3/10: the code's stencil is
centered on the popped cell, not on the cell being updated. -/
theorem C3_counterexample :
    specMinXAt solC3 3 3 1 1 = some 0 ∧
    specMinYAt solC3 3 3 1 1 = some (1/2) ∧
    specMinXAt solC3 3 3 2 1 = some (1/2) ∧
    specMinYAt solC3 3 3 2 1 = some (1/10) ∧
    codeTentativeAt ratSqrt solC3 3 3 1 1 (1/5) = some (1/5) ∧
    specUpwindFormula ratSqrt (1/2) (1/10) (1/5) = 3/10 ∧
    (1/5 : ℚ) ≠ 3/10 := by
  refine ⟨by with_unfolding_all rfl, by with_unfolding_all rfl,
    by with_unfolding_all rfl, by with_unfolding_all rfl,
    by with_unfolding_all rfl, by with_unfolding_all rfl, by norm_num⟩

/-- C3 (amended): the tentative value computed for every neighbor update
equals the spec's upwind formula applied to the stencil of the popped
(current) cell, with the speed cost taken at the neighbor: whenever the
code's minX and minY at the current cell are both finite, the computed value
is exactly specUpwindFormula minX minY speed. -/
theorem C3_upwind_at_current_cell (sqrt : ℚ → ℚ) (sol : List JVal)
    (width height : ℕ) (cx cy : ℤ) (speed mx my : ℚ)
    (hx : specMinXAt sol width height cx cy = some mx)
    (hy : specMinYAt sol width height cx cy = some my) :
    codeTentativeAt sqrt sol width height cx cy speed =
      some (specUpwindFormula sqrt mx my speed) := by
  unfold codeTentativeAt
  unfold specMinXAt at hx
  unfold specMinYAt at hy
  rw [hx, hy]
  show some (upwindBothFinite sqrt mx my speed) = some (specUpwindFormula sqrt mx my speed)
  congr 1

/-- Witness for C3_upwind_at_current_cell at the concrete state solC3. -/
theorem C3_upwind_at_current_cell_witness :
    codeTentativeAt ratSqrt solC3 3 3 1 1 (1/5) =
      some (specUpwindFormula ratSqrt 0 (1/2) (1/5)) :=
  C3_upwind_at_current_cell ratSqrt solC3 3 3 1 1 (1/5) 0 (1/2)
    (by with_unfolding_all rfl) (by with_unfolding_all rfl)

/-! ### The stipple sampler (worker.js, handleExtractStipple)

The sampler draws on the host environment: Math.random (modelled as an
explicit stream of draws in [0, 1), consumed in program order, 0 once
exhausted), Math.PI, Math.cos, Math.sin and Math.sqrt (fields of a JSMath
parameter).  Concrete runs use mathModel below, whose trigonometric entries
are exact at the only two angles those runs draw (0 and pi). -/

structure JSMath where
  sqrt : ℚ → ℚ
  cos : ℚ → ℚ
  sin : ℚ → ℚ
  pi : ℚ

/-- The double value of Math.PI. -/
def piModel : ℚ := 3141592653589793 / 1000000000000000

/-- Rational model of Math.cos, exact at the two angles the concrete runs
draw: cos 0 = 1, and Math.cos(Math.PI) is exactly -1 in double precision.
Rationals are kept normalized, so dispatching on the numerator and
denominator is the same as dispatching on the value (it just evaluates
faster). -/
def cosModel (q : ℚ) : ℚ :=
  if q.num = 0 then 1
  else if q.num = 3141592653589793 ∧ (q.den : ℤ) = 1000000000000000 then -1
  else 0

/-- Rational model of Math.sin at the same two angles: sin 0 = 0, and
Math.sin(Math.PI) is about 1.2e-16, far below anything the runs below
distinguish; modelled as 0 (the value at other angles is never drawn). -/
def sinModel (_q : ℚ) : ℚ := 0

/-- The canonical environment model used by concrete runs. -/
def mathModel : JSMath := ⟨ratSqrt, cosModel, sinModel, piModel⟩

structure SPoint where
  x : ℚ
  y : ℚ
deriving DecidableEq

instance : Inhabited SPoint := ⟨⟨0, 0⟩⟩

structure StippleEnv where
  gray : List ℚ
  width : ℕ
  height : ℕ
  interval : ℚ
  threshold : ℚ

structure StippleState where
  points : List SPoint
  grid : List ℤ
  active : List ℕ
  rands : List ℚ
deriving DecidableEq

/-- Draw the next Math.random() value from the stream. -/
def randPop : List ℚ → ℚ × List ℚ
  | [] => (0, [])
  | r :: rs => (r, rs)

def minRadius : ℚ := 3/2

def maxRadius (env : StippleEnv) : ℚ := env.interval

/-- mask[i] (worker.js lines 586 to 593): 1 exactly where the grayscale is
below the threshold; any access outside the array reads undefined, which is
falsy. -/
def maskAt (env : StippleEnv) (i : ℤ) : Bool :=
  if i < 0 then false
  else
    match env.gray.get? i.toNat with
    | some g => decide (g < env.threshold)
    | none => false

/-- The count of mask cells (the source's activePixels loop). -/
def activePixels (env : StippleEnv) : ℕ :=
  env.gray.foldl (fun acc g => if g < env.threshold then acc + 1 else acc) 0

def cellSize (env : StippleEnv) (M : JSMath) : ℚ := maxRadius env / M.sqrt 2

def gridWidth (env : StippleEnv) (M : JSMath) : ℕ :=
  (⌈(env.width : ℚ) / cellSize env M⌉).toNat

def gridHeight (env : StippleEnv) (M : JSMath) : ℕ :=
  (⌈(env.height : ℚ) / cellSize env M⌉).toNat

/-- grayData read at a signed flat index, 0 outside (only consulted at
in-bounds points in the runs below). -/
def grayAtZ (env : StippleEnv) (i : ℤ) : ℚ :=
  if i < 0 then 0 else env.gray.getD i.toNat 0

/-- getRadius (worker.js lines 607 to 611): interpolate between minRadius and
maxRadius by the grayscale value under the point. -/
def getRadius (env : StippleEnv) (x y : ℚ) : ℚ :=
  minRadius + grayAtZ env (⌊y⌋ * env.width + ⌊x⌋) * (maxRadius env - minRadius)

/-- insertPoint (worker.js lines 613 to 620): push the point, record its index
in its grid cell (overwriting any previous occupant of that cell), and add it
to the active list. -/
def insertPoint (env : StippleEnv) (M : JSMath) (p : SPoint) (st : StippleState) :
    StippleState :=
  { points := st.points ++ [p]
    grid := st.grid.set
      ((⌊p.y / cellSize env M⌋).toNat * gridWidth env M + (⌊p.x / cellSize env M⌋).toNat)
      (st.points.length : ℤ)
    active := st.active ++ [st.points.length]
    rands := st.rands }

/-- One seed's rejection-sampling loop (worker.js lines 624 to 631): up to 50
uniform draws, inserting the first that lands on the mask, with no distance
check at all. -/
def seedAttempt (env : StippleEnv) (M : JSMath) : ℕ → StippleState → StippleState
  | 0, st => st
  | n+1, st =>
      let d1 := randPop st.rands
      let d2 := randPop d1.2
      let rx := d1.1 * env.width
      let ry := d2.1 * env.height
      let st1 := { st with rands := d2.2 }
      if maskAt env (⌊ry⌋ * env.width + ⌊rx⌋) then insertPoint env M ⟨rx, ry⟩ st1
      else seedAttempt env M n st1

/-- numSeeds = min(10, ceil(activePixels / 10000)) (worker.js line 622). -/
def numSeeds (env : StippleEnv) : ℕ :=
  min 10 (⌈(activePixels env : ℚ) / 10000⌉).toNat

/-- The seed phase (worker.js lines 622 to 632). -/
def seedPhase (env : StippleEnv) (M : JSMath) (st : StippleState) : StippleState :=
  (List.range (numSeeds env)).foldl (fun s _ => seedAttempt env M 50 s) st

/-- The center fallback (worker.js line 634). -/
def seedFallback (env : StippleEnv) (M : JSMath) (st : StippleState) : StippleState :=
  if st.points.isEmpty then
    insertPoint env M ⟨(env.width : ℚ) / 2, (env.height : ℚ) / 2⟩ st
  else st

/-- checkRange = ceil(maxRadius / cellSize) (worker.js line 660). -/
def checkRangeN (env : StippleEnv) (M : JSMath) : ℕ :=
  (⌈maxRadius env / cellSize env M⌉).toNat

/-- The integers from -r to r in order, as the source's dy/dx loops visit
them. -/
def rangeZ (r : ℕ) : List ℤ := (List.range (2*r + 1)).map (fun k : ℕ => (k : ℤ) - r)

/-- The squared Euclidean distance between two points (the source compares
squared distances throughout, never taking a square root). -/
def distSq (p q : SPoint) : ℚ :=
  (p.x - q.x) * (p.x - q.x) + (p.y - q.y) * (p.y - q.y)

/-- The point recorded in a grid cell: points[grid[ngy * gridWidth + ngx]]. -/
def gridPointAt (env : StippleEnv) (M : JSMath) (st : StippleState)
    (ngx ngy : ℤ) : SPoint :=
  st.points.getD (st.grid.getD (ngy * (gridWidth env M : ℤ) + ngx).toNat (-1)).toNat default

/-- The per-cell body of the rejection scan (worker.js lines 663 to 676): a
grid cell in bounds whose occupant index is not -1 flags the candidate when
the squared distance to that occupant is below the squared average of the two
local radii. -/
def cellTooClose (env : StippleEnv) (M : JSMath) (st : StippleState)
    (nx ny nr : ℚ) (ngx ngy : ℤ) : Bool :=
  if 0 ≤ ngx ∧ ngx < (gridWidth env M : ℤ) ∧ 0 ≤ ngy ∧ ngy < (gridHeight env M : ℤ) then
    if st.grid.getD (ngy * (gridWidth env M : ℤ) + ngx).toNat (-1) ≠ -1 then
      decide (distSq ⟨nx, ny⟩ (gridPointAt env M st ngx ngy) <
        ((nr + getRadius env (gridPointAt env M st ngx ngy).x (gridPointAt env M st ngx ngy).y) / 2) *
        ((nr + getRadius env (gridPointAt env M st ngx ngy).x (gridPointAt env M st ngx ngy).y) / 2))
    else false
  else false

/-- The full tooClose scan over the (2 checkRange + 1)^2 ring of grid cells
(worker.js lines 658 to 679); the source's early breaks make it exactly an
existence test. -/
def tooCloseCheck (env : StippleEnv) (M : JSMath) (st : StippleState)
    (nx ny nr : ℚ) : Bool :=
  (rangeZ (checkRangeN env M)).any fun dy =>
    (rangeZ (checkRangeN env M)).any fun dx =>
      cellTooClose env M st nx ny nr
        (⌊nx / cellSize env M⌋ + dx) (⌊ny / cellSize env M⌋ + dy)

/-- The k = 20 candidate attempts around an active point p of radius r
(worker.js lines 646 to 687): draw an angle and a distance in [r, 2r), skip
candidates off the field or off the mask or too close, insert the first
acceptable one. -/
def candidateLoop (env : StippleEnv) (M : JSMath) (p : SPoint) (r : ℚ) :
    ℕ → StippleState → Bool × StippleState
  | 0, st => (false, st)
  | k+1, st =>
      let d1 := randPop st.rands
      let d2 := randPop d1.2
      let angle := d1.1 * M.pi * 2
      let dist := r + d2.1 * r
      let nx := p.x + M.cos angle * dist
      let ny := p.y + M.sin angle * dist
      let st1 := { st with rands := d2.2 }
      if 0 ≤ nx ∧ nx < (env.width : ℚ) ∧ 0 ≤ ny ∧ ny < (env.height : ℚ) then
        if maskAt env (⌊ny⌋ * env.width + ⌊nx⌋) = false then
          candidateLoop env M p r k st1
        else
          if tooCloseCheck env M st1 nx ny (getRadius env nx ny) then
            candidateLoop env M p r k st1
          else (true, insertPoint env M ⟨nx, ny⟩ st1)
      else candidateLoop env M p r k st1

/-- One iteration of the dart-throwing loop body (worker.js lines 640 to
691): pick a random active point, try k candidates around it, and retire the
point from the active list when none is accepted. -/
def stippleStep (env : StippleEnv) (M : JSMath) (st : StippleState) : StippleState :=
  let d0 := randPop st.rands
  let activeIdx := (⌊d0.1 * (st.active.length : ℚ)⌋).toNat
  let pIdx := st.active.getD activeIdx 0
  let p := st.points.getD pIdx default
  let res := candidateLoop env M p (getRadius env p.x p.y) 20 { st with rands := d0.2 }
  if res.1 then res.2 else { res.2 with active := res.2.active.eraseIdx activeIdx }

/-- The main dart-throwing loop (worker.js lines 636 to 699): run the body
while the active list is nonempty; the cap check
if (points.length > 150000) break runs at the bottom of each iteration,
after the insertion.  The cancellation/pause checkpoint and the progress post
mutate none of this state and are omitted. -/
def stippleLoop (env : StippleEnv) (M : JSMath) : ℕ → StippleState → StippleState
  | 0, st => st
  | fuel+1, st =>
      if st.active.isEmpty then st
      else
        if 150000 < (stippleStep env M st).points.length then stippleStep env M st
        else stippleLoop env M fuel (stippleStep env M st)

/-- handleExtractStipple from the mask scan to the end of the sampling loop:
empty mask short-circuits to an empty output, otherwise seed, fall back to
the center if no seed landed, and run the dart-throwing loop. -/
def stippleRun (env : StippleEnv) (M : JSMath) (rands : List ℚ) (fuel : ℕ) :
    StippleState :=
  if activePixels env = 0 then { points := [], grid := [], active := [], rands := rands }
  else
    stippleLoop env M fuel
      (seedFallback env M (seedPhase env M
        { points := []
          grid := List.replicate (gridWidth env M * gridHeight env M) (-1)
          active := []
          rands := rands }))

theorem stippleStateExt (s t : StippleState) (h1 : s.points = t.points)
    (h2 : s.grid = t.grid) (h3 : s.active = t.active) (h4 : s.rands = t.rands) :
    s = t := by
  cases s
  cases t
  cases h1
  cases h2
  cases h3
  cases h4
  rfl

/-- Unfolding one non-final iteration of the sampling loop. -/
theorem stippleLoop_step (env : StippleEnv) (M : JSMath) (fuel : ℕ)
    (st : StippleState) (hne : st.active.isEmpty = false)
    (hcap : ¬ 150000 < (stippleStep env M st).points.length) :
    stippleLoop env M (fuel + 1) st = stippleLoop env M fuel (stippleStep env M st) := by
  conv_lhs => rw [stippleLoop]
  rw [if_neg (by simp [hne]), if_neg hcap]

/-! #### The 150000 cap (C8) -/

theorem candidateLoop_points_le (env : StippleEnv) (M : JSMath) (p : SPoint)
    (r : ℚ) : ∀ (k : ℕ) (st : StippleState),
    (candidateLoop env M p r k st).2.points.length ≤ st.points.length + 1 := by
  intro k
  induction k with
  | zero =>
      intro st
      exact Nat.le_succ _
  | succ n ih =>
      intro st
      unfold candidateLoop
      dsimp only
      split
      · split
        · exact ih _
        · split
          · exact ih _
          · simp [insertPoint]
      · exact ih _

theorem stippleStep_points_le (env : StippleEnv) (M : JSMath) (st : StippleState) :
    (stippleStep env M st).points.length ≤ st.points.length + 1 := by
  unfold stippleStep
  dsimp only
  split
  · exact candidateLoop_points_le env M _ _ 20 _
  · exact candidateLoop_points_le env M _ _ 20 _

/-- C8 (supporting theorem for the cap defect): from any loop state holding at
most 150000 points, the sampling loop can end with at most 150001 points, one
more than the claimed hard cap: each iteration inserts at most one point and
the break check if (points.length > 150000) runs only after the insertion,
so the loop exits at 150001, not at 150000. -/
theorem C8_cap_off_by_one (env : StippleEnv) (M : JSMath) :
    ∀ (fuel : ℕ) (st : StippleState), st.points.length ≤ 150000 →
      (stippleLoop env M fuel st).points.length ≤ 150001 := by
  intro fuel
  induction fuel with
  | zero =>
      intro st h
      exact le_trans h (by norm_num)
  | succ n ih =>
      intro st h
      have hstep := stippleStep_points_le env M st
      unfold stippleLoop
      split
      · exact le_trans h (by norm_num)
      · split
        · omega
        · exact ih _ (by omega)

/-- Witness for C8_cap_off_by_one on a loop state with no active points. -/
theorem C8_cap_off_by_one_witness :
    (stippleLoop ⟨List.replicate 16 0, 4, 4, 8, 1/2⟩ mathModel 1
      ⟨[⟨1/2, 1/2⟩], [0], [], []⟩).points.length ≤ 150001 :=
  C8_cap_off_by_one ⟨List.replicate 16 0, 4, 4, 8, 1/2⟩ mathModel 1
    ⟨[⟨1/2, 1/2⟩], [0], [], []⟩ (by norm_num)

/-! #### The spacing invariant (C7) -/

/-- Two points lie within each other's spatial-grid search range: their grid
cells differ by at most checkRange in each coordinate. -/
def sameSearchRange (env : StippleEnv) (M : JSMath) (p q : SPoint) : Bool :=
  decide ((⌊p.x / cellSize env M⌋ - ⌊q.x / cellSize env M⌋).natAbs ≤ checkRangeN env M) &&
  decide ((⌊p.y / cellSize env M⌋ - ⌊q.y / cellSize env M⌋).natAbs ≤ checkRangeN env M)

/-- The average of the local radii of two points. -/
def avgRadius (env : StippleEnv) (p q : SPoint) : ℚ :=
  (getRadius env p.x p.y + getRadius env q.x q.y) / 2

/-- The claim's invariant: every pair of distinct accepted points within each
other's search range is at least the average of their radii apart (stated on
squares, since distances are compared squared throughout the source). -/
def pointsRespectRadii (env : StippleEnv) (M : JSMath) (pts : List SPoint) : Prop :=
  ∀ i j : ℕ, i < pts.length → j < pts.length → i ≠ j →
    sameSearchRange env M (pts.getD i default) (pts.getD j default) = true →
    avgRadius env (pts.getD i default) (pts.getD j default) *
      avgRadius env (pts.getD i default) (pts.getD j default) ≤
      distSq (pts.getD i default) (pts.getD j default)

/-- A 4x4 all-dark field with the default interval 8 and threshold 1/2. -/
def env7 : StippleEnv := ⟨List.replicate 16 0, 4, 4, 8, 1/2⟩

/-- Random draws for the refuting run: seed at (1/2, 1/2); first dart from it
at angle 0, distance r, accepted at (2, 1/2) overwriting the seed's grid
cell; second dart from the new point at angle pi, distance r (1 + 1/100),
landing at (97/200, 1/2), 3/200 away from the seed that the grid no longer
shows. -/
def stream7 : List ℚ := [1/8, 1/8, 0, 0, 0, 1/2, 1/2, 1/100]

def pts7 : List SPoint := [⟨1/2, 1/2⟩, ⟨2, 1/2⟩, ⟨97/200, 1/2⟩]

/-- C7 counterexample: after the third insertion of this concrete run the
accepted points 0 and 2 lie in the same grid cell, 3/200 apart, far below
their average radius 3/2: the pair violates the claimed invariant.  Two flaws
conspire: seed insertion performs no distance check at all, and each grid
cell remembers only its most recent point, so the overwritten seed is
invisible to the rejection test. -/
theorem C7_counterexample :
    (stippleRun env7 mathModel stream7 2).points = pts7 ∧
    sameSearchRange env7 mathModel ⟨1/2, 1/2⟩ ⟨97/200, 1/2⟩ = true ∧
    ¬ pointsRespectRadii env7 mathModel (stippleRun env7 mathModel stream7 2).points := by
  have hseed : seedFallback env7 mathModel (seedPhase env7 mathModel
      { points := []
        grid := List.replicate (gridWidth env7 mathModel * gridHeight env7 mathModel) (-1)
        active := []
        rands := stream7 }) =
      ⟨[⟨1/2, 1/2⟩], [0], [0], [0, 0, 0, 1/2, 1/2, 1/100]⟩ :=
    stippleStateExt _ _ (by with_unfolding_all rfl) (by with_unfolding_all rfl)
      (by with_unfolding_all rfl) (by with_unfolding_all rfl)
  have h1 : stippleStep env7 mathModel ⟨[⟨1/2, 1/2⟩], [0], [0], [0, 0, 0, 1/2, 1/2, 1/100]⟩ =
      ⟨[⟨1/2, 1/2⟩, ⟨2, 1/2⟩], [1], [0, 1], [1/2, 1/2, 1/100]⟩ :=
    stippleStateExt _ _ (by with_unfolding_all rfl) (by with_unfolding_all rfl)
      (by with_unfolding_all rfl) (by with_unfolding_all rfl)
  have h2 : stippleStep env7 mathModel ⟨[⟨1/2, 1/2⟩, ⟨2, 1/2⟩], [1], [0, 1], [1/2, 1/2, 1/100]⟩ =
      ⟨pts7, [2], [0, 1, 2], []⟩ :=
    stippleStateExt _ _ (by with_unfolding_all rfl) (by with_unfolding_all rfl)
      (by with_unfolding_all rfl) (by with_unfolding_all rfl)
  have hrun : stippleRun env7 mathModel stream7 2 = ⟨pts7, [2], [0, 1, 2], []⟩ := by
    unfold stippleRun
    rw [if_neg (by with_unfolding_all decide)]
    rw [hseed]
    rw [stippleLoop_step env7 mathModel 1 _ (by with_unfolding_all rfl)
      (by rw [h1]; norm_num)]
    rw [h1]
    rw [stippleLoop_step env7 mathModel 0 _ (by with_unfolding_all rfl)
      (by rw [h2]; norm_num [pts7])]
    rw [h2]
    rfl
  refine ⟨by rw [hrun], by with_unfolding_all rfl, ?_⟩
  rw [hrun]
  intro hresp
  have h02 := hresp 0 2 (by norm_num [pts7]) (by norm_num [pts7]) (by norm_num)
    (by with_unfolding_all rfl)
  have hfalse : ¬ (avgRadius env7 (pts7.getD 0 default) (pts7.getD 2 default) *
      avgRadius env7 (pts7.getD 0 default) (pts7.getD 2 default) ≤
      distSq (pts7.getD 0 default) (pts7.getD 2 default)) :=
    of_decide_eq_false (by with_unfolding_all rfl)
  exact hfalse h02

theorem mem_rangeZ (r : ℕ) (z : ℤ) : z ∈ rangeZ r ↔ z.natAbs ≤ r := by
  unfold rangeZ
  rw [List.mem_map]
  constructor
  · rintro ⟨k, hk, hkz⟩
    rw [List.mem_range] at hk
    omega
  · intro h
    refine ⟨(z + r).toNat, ?_, ?_⟩
    · rw [List.mem_range]
      omega
    · omega

/-- C7 (amended): the distance guguarantee the sampler actually provides is
the one its rejection test checks: whenever a candidate at (nx, ny) with
local radius nr passes the tooClose scan, its squared distance to the point
recorded in every in-bounds grid cell within checkRange of its own cell is at
least the squared average of the two local radii.  Seed-phase insertions
bypass this test entirely, and a cell remembers only the point most recently
inserted into it, so earlier points sharing a cell are not checked. -/
theorem C7_rejection_guarantee (env : StippleEnv) (M : JSMath) (st : StippleState)
    (nx ny nr : ℚ) (dx dy : ℤ)
    (hcheck : tooCloseCheck env M st nx ny nr = false)
    (hdx : dx.natAbs ≤ checkRangeN env M) (hdy : dy.natAbs ≤ checkRangeN env M)
    (hin : 0 ≤ ⌊nx / cellSize env M⌋ + dx ∧ ⌊nx / cellSize env M⌋ + dx < (gridWidth env M : ℤ) ∧
           0 ≤ ⌊ny / cellSize env M⌋ + dy ∧ ⌊ny / cellSize env M⌋ + dy < (gridHeight env M : ℤ))
    (hocc : st.grid.getD ((⌊ny / cellSize env M⌋ + dy) * (gridWidth env M : ℤ) +
        (⌊nx / cellSize env M⌋ + dx)).toNat (-1) ≠ -1) :
    ((nr + getRadius env
        (gridPointAt env M st (⌊nx / cellSize env M⌋ + dx) (⌊ny / cellSize env M⌋ + dy)).x
        (gridPointAt env M st (⌊nx / cellSize env M⌋ + dx) (⌊ny / cellSize env M⌋ + dy)).y) / 2) *
    ((nr + getRadius env
        (gridPointAt env M st (⌊nx / cellSize env M⌋ + dx) (⌊ny / cellSize env M⌋ + dy)).x
        (gridPointAt env M st (⌊nx / cellSize env M⌋ + dx) (⌊ny / cellSize env M⌋ + dy)).y) / 2) ≤
    distSq ⟨nx, ny⟩ (gridPointAt env M st (⌊nx / cellSize env M⌋ + dx) (⌊ny / cellSize env M⌋ + dy)) := by
  unfold tooCloseCheck at hcheck
  rw [List.any_eq_false] at hcheck
  have hrow := hcheck dy ((mem_rangeZ _ _).mpr hdy)
  rw [Bool.not_eq_true, List.any_eq_false] at hrow
  have hcell := hrow dx ((mem_rangeZ _ _).mpr hdx)
  rw [Bool.not_eq_true] at hcell
  unfold cellTooClose at hcell
  rw [if_pos hin, if_pos hocc] at hcell
  rw [decide_eq_false_iff_not] at hcell
  exact not_lt.mp hcell

/-- Witness for C7_rejection_guarantee: the accepted second dart of the
refuting run is indeed far enough from the one point its grid shows. -/
theorem C7_rejection_guarantee_witness :
    ((3/2 + getRadius env7
        (gridPointAt env7 mathModel ⟨[⟨1/2, 1/2⟩, ⟨2, 1/2⟩], [1], [0, 1], [1/100]⟩
          (⌊(97/200 : ℚ) / cellSize env7 mathModel⌋ + 0)
          (⌊(1/2 : ℚ) / cellSize env7 mathModel⌋ + 0)).x
        (gridPointAt env7 mathModel ⟨[⟨1/2, 1/2⟩, ⟨2, 1/2⟩], [1], [0, 1], [1/100]⟩
          (⌊(97/200 : ℚ) / cellSize env7 mathModel⌋ + 0)
          (⌊(1/2 : ℚ) / cellSize env7 mathModel⌋ + 0)).y) / 2) *
    ((3/2 + getRadius env7
        (gridPointAt env7 mathModel ⟨[⟨1/2, 1/2⟩, ⟨2, 1/2⟩], [1], [0, 1], [1/100]⟩
          (⌊(97/200 : ℚ) / cellSize env7 mathModel⌋ + 0)
          (⌊(1/2 : ℚ) / cellSize env7 mathModel⌋ + 0)).x
        (gridPointAt env7 mathModel ⟨[⟨1/2, 1/2⟩, ⟨2, 1/2⟩], [1], [0, 1], [1/100]⟩
          (⌊(97/200 : ℚ) / cellSize env7 mathModel⌋ + 0)
          (⌊(1/2 : ℚ) / cellSize env7 mathModel⌋ + 0)).y) / 2) ≤
    distSq ⟨97/200, 1/2⟩
      (gridPointAt env7 mathModel ⟨[⟨1/2, 1/2⟩, ⟨2, 1/2⟩], [1], [0, 1], [1/100]⟩
        (⌊(97/200 : ℚ) / cellSize env7 mathModel⌋ + 0)
        (⌊(1/2 : ℚ) / cellSize env7 mathModel⌋ + 0)) :=
  C7_rejection_guarantee env7 mathModel ⟨[⟨1/2, 1/2⟩, ⟨2, 1/2⟩], [1], [0, 1], [1/100]⟩
    (97/200) (1/2) (3/2) 0 0
    (by with_unfolding_all rfl)
    (by norm_num)
    (by norm_num)
    (by refine ⟨?_, ?_, ?_, ?_⟩ <;> with_unfolding_all decide)
    (by with_unfolding_all decide)

/-! ### The greedy TSP tour (worker.js, handleExtractTSP)

The tour builder consumes a stipple point list.  Fewer than 2 points yield an
empty tour (worker.js lines 722 to 725).  Otherwise a bucket grid of cell
size 30 is built over the points, and starting from point 0 the loop
repeatedly selects the nearest unvisited point by an expanding ring search
(radius bounded by max(gridWidth, gridHeight)), marking it used.  The source
pushes the point values directly into orderedPoints; the embedding collects
the selected indices and maps them to points at the end, which produces the
same list.  The source's found flag and nearestIdx = -1 / minDistSq =
Infinity sentinels are modelled by an Option carrying (nearestIdx,
minDistSq). -/

def tspCellSize : ℚ := 30

def tspGridW (width : ℕ) : ℕ := (⌈(width : ℚ) / tspCellSize⌉).toNat

def tspGridH (height : ℕ) : ℕ := (⌈(height : ℚ) / tspCellSize⌉).toNat

def tspCellX (p : SPoint) : ℤ := ⌊p.x / tspCellSize⌋

def tspCellY (p : SPoint) : ℤ := ⌊p.y / tspCellSize⌋

/-- The flat bucket index of a point's cell, gy * gridWidth + gx. -/
def tspCellIndex (width : ℕ) (p : SPoint) : ℕ :=
  (tspCellY p).toNat * tspGridW width + (tspCellX p).toNat

/-- Building the bucket grid (worker.js lines 734 to 740): every point index
is appended to its cell's list. -/
def buildTspGrid (width height : ℕ) (points : List SPoint) : List (List ℕ) :=
  (List.range points.length).foldl
    (fun g i =>
      g.set (tspCellIndex width (points.getD i default))
        (g.getD (tspCellIndex width (points.getD i default)) [] ++ [i]))
    (List.replicate (tspGridW width * tspGridH height) [])

/-- One candidate of a cell's bucket (worker.js lines 779 to 786): an unused
index whose squared distance to the current point improves the minimum
becomes the new nearest candidate.  An out-of-range read of the used array is
treated as used; the grid only ever holds in-range indices. -/
def scanStep (points : List SPoint) (used : List Bool) (cp : SPoint)
    (b : Option (ℕ × ℚ)) (pIdx : ℕ) : Option (ℕ × ℚ) :=
  if used.getD pIdx true then b
  else
    match b with
    | none => some (pIdx, distSq cp (points.getD pIdx default))
    | some (j, m) =>
        if distSq cp (points.getD pIdx default) < m then
          some (pIdx, distSq cp (points.getD pIdx default))
        else some (j, m)

/-- Scanning one cell's bucket (worker.js lines 778 to 787). -/
def scanCell (points : List SPoint) (used : List Bool) (cp : SPoint)
    (best : Option (ℕ × ℚ)) (cell : List ℕ) : Option (ℕ × ℚ) :=
  cell.foldl (scanStep points used cp) best

/-- One cell offset of a ring scan (worker.js lines 770 to 789): offsets not
on the ring boundary are skipped (except at radius 0), out-of-grid cells are
skipped, the rest are scanned. -/
def ringInner (points : List SPoint) (used : List Bool) (grid : List (List ℕ))
    (gw gh : ℕ) (cp : SPoint) (gx gy : ℤ) (r : ℕ) (dy : ℤ)
    (b2 : Option (ℕ × ℚ)) (dx : ℤ) : Option (ℕ × ℚ) :=
  if dx.natAbs ≠ r ∧ dy.natAbs ≠ r ∧ 0 < r then b2
  else
    if 0 ≤ gx + dx ∧ gx + dx < (gw : ℤ) ∧ 0 ≤ gy + dy ∧ gy + dy < (gh : ℤ) then
      scanCell points used cp b2
        (grid.getD ((gy + dy) * (gw : ℤ) + (gx + dx)).toNat [])
    else b2

/-- Scanning the full ring at one search radius. -/
def scanRing (points : List SPoint) (used : List Bool) (grid : List (List ℕ))
    (gw gh : ℕ) (cp : SPoint) (gx gy : ℤ) (r : ℕ)
    (best : Option (ℕ × ℚ)) : Option (ℕ × ℚ) :=
  (rangeZ r).foldl
    (fun b dy => (rangeZ r).foldl (ringInner points used grid gw gh cp gx gy r dy) b)
    best

/-- The expanding search (worker.js lines 766 to 792):
while (!found && searchRadius < max(gridWidth, gridHeight)) scan the next
ring. -/
def searchLoop (points : List SPoint) (used : List Bool) (grid : List (List ℕ))
    (gw gh : ℕ) (cp : SPoint) (gx gy : ℤ) (r maxR : ℕ)
    (best : Option (ℕ × ℚ)) : Option (ℕ × ℚ) :=
  if r < maxR then
    match best with
    | some b => some b
    | none => searchLoop points used grid gw gh cp gx gy (r + 1) maxR
        (scanRing points used grid gw gh cp gx gy r none)
  else best
termination_by maxR - r

/-- The main tour loop (worker.js lines 747 to 800): while points remain,
find the nearest unused point from the current one, append it, mark it used;
a failed search breaks out early. -/
def tspLoop (points : List SPoint) (grid : List (List ℕ)) (gw gh : ℕ) :
    ℕ → List Bool → List ℕ → ℕ → List ℕ
  | 0, _, ordered, _ => ordered
  | remaining+1, used, ordered, currentIdx =>
      match searchLoop points used grid gw gh (points.getD currentIdx default)
          (tspCellX (points.getD currentIdx default))
          (tspCellY (points.getD currentIdx default)) 0 (max gw gh) none with
      | none => ordered
      | some nb =>
          tspLoop points grid gw gh remaining (used.set nb.1 true)
            (ordered ++ [nb.1]) nb.1

/-- The selected indices of the tour, starting at point 0 (worker.js lines
742 to 745). -/
def tspTourIdx (width height : ℕ) (points : List SPoint) : List ℕ :=
  tspLoop points (buildTspGrid width height points) (tspGridW width) (tspGridH height)
    (points.length - 1) ((List.replicate points.length false).set 0 true) [0] 0

/-- The tour handleExtractTSP posts: empty below 2 input points, otherwise
the ordered point list. -/
def tspTour (width height : ℕ) (points : List SPoint) : List SPoint :=
  if points.length < 2 then []
  else (tspTourIdx width height points).map (fun i => points.getD i default)

/-! #### Tour permutation proof (C9) -/

theorem foldl_preserve_mem {α β : Type} (f : α → β → α) (P : α → Prop) :
    ∀ (l : List β), (∀ a b, b ∈ l → P a → P (f a b)) → ∀ a, P a → P (l.foldl f a) := by
  intro l
  induction l with
  | nil =>
      intro _ a ha
      exact ha
  | cons b t ih =>
      intro hf a ha
      exact ih (fun a2 b2 hb2 => hf a2 b2 (List.mem_cons_of_mem _ hb2)) _
        (hf a b (List.mem_cons_self _ _) ha)

theorem getD_mem_of_lt {α : Type} (l : List α) (n : ℕ) (d : α) (h : n < l.length) :
    l.getD n d ∈ l := by
  rw [List.getD_eq_getElem l d h]
  exact List.getElem_mem h

theorem buildTspGrid_length (width height : ℕ) (points : List SPoint) :
    (buildTspGrid width height points).length = tspGridW width * tspGridH height := by
  unfold buildTspGrid
  refine foldl_preserve _
    (fun g : List (List ℕ) => g.length = tspGridW width * tspGridH height) ?_ _ _ (by simp)
  intro a b ha
  simpa using ha

theorem buildTspGrid_mem_lt (width height : ℕ) (points : List SPoint) :
    ∀ (c : ℕ), ∀ j ∈ (buildTspGrid width height points).getD c [], j < points.length := by
  have h := foldl_preserve_mem
    (fun (g : List (List ℕ)) i =>
      g.set (tspCellIndex width (points.getD i default))
        (g.getD (tspCellIndex width (points.getD i default)) [] ++ [i]))
    (fun g : List (List ℕ) => ∀ (c : ℕ), ∀ j ∈ g.getD c [], j < points.length)
    (List.range points.length) ?_
    (List.replicate (tspGridW width * tspGridH height) []) ?_
  · exact h
  · intro a i hi ha c j hj
    dsimp only at hj
    have hin : i < points.length := List.mem_range.mp hi
    by_cases hc : c = tspCellIndex width (points.getD i default)
    · subst hc
      by_cases hlen : tspCellIndex width (points.getD i default) < a.length
      · rw [getD_set_self _ _ _ _ hlen] at hj
        rcases List.mem_append.mp hj with h1 | h2
        · exact ha _ j h1
        · rw [List.mem_singleton.mp h2]
          exact hin
      · rw [List.set_eq_of_length_le (by omega)] at hj
        exact ha _ j hj
    · rw [getD_set_ne _ _ _ _ _ hc] at hj
      exact ha _ j hj
  · intro c j hj
    have : List.getD (List.replicate (tspGridW width * tspGridH height) []) c [] = ([] : List ℕ) := by
      by_cases hc : c < tspGridW width * tspGridH height
      · rw [List.getD_eq_getElem?_getD]
        simp [List.getElem?_replicate, hc]
      · rw [List.getD_eq_getElem?_getD, List.getElem?_eq_none (by simpa using hc)]
        rfl
    rw [this] at hj
    cases hj

theorem tspCell_bounds (width height : ℕ) (p : SPoint)
    (hx0 : 0 ≤ p.x) (hxw : p.x < width) (hy0 : 0 ≤ p.y) (hyh : p.y < height) :
    (tspCellX p).toNat < tspGridW width ∧ (tspCellY p).toNat < tspGridH height ∧
    0 ≤ tspCellX p ∧ 0 ≤ tspCellY p ∧
    tspCellIndex width p < tspGridW width * tspGridH height := by
  have h30 : (0:ℚ) < tspCellSize := by norm_num [tspCellSize]
  have hgx0 : 0 ≤ tspCellX p := Int.floor_nonneg.mpr (div_nonneg hx0 (le_of_lt h30))
  have hgy0 : 0 ≤ tspCellY p := Int.floor_nonneg.mpr (div_nonneg hy0 (le_of_lt h30))
  have hgx : tspCellX p < ⌈(width : ℚ) / tspCellSize⌉ := by
    apply Int.floor_lt.mpr
    exact lt_of_lt_of_le ((div_lt_div_iff_of_pos_right h30).mpr hxw) (Int.le_ceil _)
  have hgy : tspCellY p < ⌈(height : ℚ) / tspCellSize⌉ := by
    apply Int.floor_lt.mpr
    exact lt_of_lt_of_le ((div_lt_div_iff_of_pos_right h30).mpr hyh) (Int.le_ceil _)
  have hx' : (tspCellX p).toNat < tspGridW width := by
    unfold tspGridW
    omega
  have hy' : (tspCellY p).toNat < tspGridH height := by
    unfold tspGridH
    omega
  refine ⟨hx', hy', hgx0, hgy0, ?_⟩
  unfold tspCellIndex
  calc (tspCellY p).toNat * tspGridW width + (tspCellX p).toNat
      < ((tspCellY p).toNat + 1) * tspGridW width := by
        rw [Nat.succ_mul]
        omega
    _ ≤ tspGridH height * tspGridW width := Nat.mul_le_mul_right _ hy'
    _ = tspGridW width * tspGridH height := Nat.mul_comm _ _

theorem buildTspGrid_covers (width height : ℕ) (points : List SPoint)
    (hb : ∀ p ∈ points, 0 ≤ p.x ∧ p.x < width ∧ 0 ≤ p.y ∧ p.y < height) :
    ∀ i < points.length,
      i ∈ (buildTspGrid width height points).getD
        (tspCellIndex width (points.getD i default)) [] := by
  have aux : ∀ m : ℕ,
      (((List.range m).foldl
        (fun g i =>
          g.set (tspCellIndex width (points.getD i default))
            (g.getD (tspCellIndex width (points.getD i default)) [] ++ [i]))
        (List.replicate (tspGridW width * tspGridH height) [])).length =
          tspGridW width * tspGridH height) ∧
      ∀ i, i < m → i < points.length →
        i ∈ ((List.range m).foldl
          (fun g i =>
            g.set (tspCellIndex width (points.getD i default))
              (g.getD (tspCellIndex width (points.getD i default)) [] ++ [i]))
          (List.replicate (tspGridW width * tspGridH height) [])).getD
          (tspCellIndex width (points.getD i default)) [] := by
    intro m
    induction m with
    | zero =>
        refine ⟨by simp, ?_⟩
        intro i hi
        omega
    | succ m ih =>
        obtain ⟨hlen, hmem⟩ := ih
        rw [List.range_succ, List.foldl_append, List.foldl_cons, List.foldl_nil]
        set g := (List.range m).foldl
          (fun g i =>
            g.set (tspCellIndex width (points.getD i default))
              (g.getD (tspCellIndex width (points.getD i default)) [] ++ [i]))
          (List.replicate (tspGridW width * tspGridH height) []) with hg
        constructor
        · simpa using hlen
        intro i hi hin
        by_cases him : i = m
        · subst him
          have hcell : tspCellIndex width (points.getD i default) <
              tspGridW width * tspGridH height := by
            have hp := hb (points.getD i default) (getD_mem_of_lt _ _ _ hin)
            exact (tspCell_bounds width height _ hp.1 hp.2.1 hp.2.2.1 hp.2.2.2).2.2.2.2
          rw [getD_set_self _ _ _ _ (by rw [hlen]; exact hcell)]
          exact List.mem_append_right _ (List.mem_singleton.mpr rfl)
        · have hprev := hmem i (by omega) hin
          by_cases hc : tspCellIndex width (points.getD i default) =
              tspCellIndex width (points.getD m default)
          · rw [hc]
            by_cases hlt : tspCellIndex width (points.getD m default) < g.length
            · rw [getD_set_self _ _ _ _ hlt]
              rw [hc] at hprev
              exact List.mem_append_left _ hprev
            · rw [List.set_eq_of_length_le (by omega)]
              rw [hc] at hprev
              exact hprev
          · rw [getD_set_ne _ _ _ _ _ hc]
            exact hprev
  intro i hi
  unfold buildTspGrid
  exact (aux points.length).2 i hi hi

theorem foldl_establish_mem {α β : Type} (f : α → β → α) (P : α → Prop) (x : β)
    (hpres : ∀ a b, P a → P (f a b)) (hest : ∀ a, P (f a x)) :
    ∀ (l : List β) (a : α), x ∈ l → P (l.foldl f a) := by
  intro l
  induction l with
  | nil =>
      intro a h
      cases h
  | cons b t ih =>
      intro a hmem
      rw [List.foldl_cons]
      rcases List.mem_cons.mp hmem with h1 | h2
      · subst h1
        exact foldl_preserve f P hpres t (f a x) (hest a)
      · exact ih (f a b) h2

/-- The invariant threaded through every candidate scan: a recorded nearest
candidate is an unused, in-range point index. -/
def BestInv (points : List SPoint) (used : List Bool) (b : Option (ℕ × ℚ)) : Prop :=
  ∀ j m, b = some (j, m) → used.getD j true = false ∧ j < points.length

theorem scanStep_isSome (points : List SPoint) (used : List Bool) (cp : SPoint)
    (b : Option (ℕ × ℚ)) (pIdx : ℕ) (hb : b.isSome = true) :
    (scanStep points used cp b pIdx).isSome = true := by
  unfold scanStep
  split
  · exact hb
  · cases b with
    | none => rfl
    | some p =>
        obtain ⟨j0, m0⟩ := p
        dsimp only
        split <;> rfl

theorem scanStep_found (points : List SPoint) (used : List Bool) (cp : SPoint)
    (b : Option (ℕ × ℚ)) (pIdx : ℕ) (h : used.getD pIdx true = false) :
    (scanStep points used cp b pIdx).isSome = true := by
  unfold scanStep
  split
  · next hcond =>
      rw [h] at hcond
      exact Bool.noConfusion hcond
  · cases b with
    | none => rfl
    | some p =>
        obtain ⟨j0, m0⟩ := p
        dsimp only
        split <;> rfl

theorem scanStep_bestInv (points : List SPoint) (used : List Bool) (cp : SPoint)
    (b : Option (ℕ × ℚ)) (pIdx : ℕ) (hp : pIdx < points.length)
    (hb : BestInv points used b) :
    BestInv points used (scanStep points used cp b pIdx) := by
  intro j m hjm
  unfold scanStep at hjm
  split at hjm
  · exact hb j m hjm
  · next hcond =>
    have hu : used.getD pIdx true = false := by
      cases hval : used.getD pIdx true
      · rfl
      · exact absurd hval hcond
    cases b with
    | none =>
        injection hjm with h
        injection h with h1 h2
        rw [← h1]
        exact ⟨hu, hp⟩
    | some p =>
        obtain ⟨j0, m0⟩ := p
        dsimp only at hjm
        split at hjm
        · injection hjm with h
          injection h with h1 h2
          rw [← h1]
          exact ⟨hu, hp⟩
        · injection hjm with h
          injection h with h1 h2
          rw [← h1]
          exact hb j0 m0 rfl

theorem scanCell_isSome (points : List SPoint) (used : List Bool) (cp : SPoint)
    (best : Option (ℕ × ℚ)) (cell : List ℕ) (hb : best.isSome = true) :
    (scanCell points used cp best cell).isSome = true :=
  foldl_preserve (scanStep points used cp) (fun b => b.isSome = true)
    (fun a x ha => scanStep_isSome points used cp a x ha) cell best hb

theorem scanCell_found (points : List SPoint) (used : List Bool) (cp : SPoint)
    (best : Option (ℕ × ℚ)) (cell : List ℕ) (j : ℕ) (hj : j ∈ cell)
    (hu : used.getD j true = false) :
    (scanCell points used cp best cell).isSome = true :=
  foldl_establish_mem (scanStep points used cp) (fun b => b.isSome = true) j
    (fun a x ha => scanStep_isSome points used cp a x ha)
    (fun a => scanStep_found points used cp a j hu) cell best hj

theorem scanCell_bestInv (points : List SPoint) (used : List Bool) (cp : SPoint)
    (best : Option (ℕ × ℚ)) (cell : List ℕ)
    (hcell : ∀ j ∈ cell, j < points.length) (hb : BestInv points used best) :
    BestInv points used (scanCell points used cp best cell) :=
  foldl_preserve_mem (scanStep points used cp) (BestInv points used) cell
    (fun a x hxmem ha => scanStep_bestInv points used cp a x (hcell x hxmem) ha) best hb

theorem ringInner_isSome (points : List SPoint) (used : List Bool)
    (grid : List (List ℕ)) (gw gh : ℕ) (cp : SPoint) (gx gy : ℤ) (r : ℕ) (dy : ℤ)
    (b2 : Option (ℕ × ℚ)) (dx : ℤ) (hb : b2.isSome = true) :
    (ringInner points used grid gw gh cp gx gy r dy b2 dx).isSome = true := by
  unfold ringInner
  split
  · exact hb
  · split
    · exact scanCell_isSome _ _ _ _ _ hb
    · exact hb

theorem ringInner_bestInv (points : List SPoint) (used : List Bool)
    (grid : List (List ℕ)) (gw gh : ℕ) (cp : SPoint) (gx gy : ℤ) (r : ℕ) (dy : ℤ)
    (b2 : Option (ℕ × ℚ)) (dx : ℤ)
    (hgrid : ∀ c : ℕ, ∀ j ∈ grid.getD c [], j < points.length)
    (hb : BestInv points used b2) :
    BestInv points used (ringInner points used grid gw gh cp gx gy r dy b2 dx) := by
  unfold ringInner
  split
  · exact hb
  · split
    · exact scanCell_bestInv _ _ _ _ _ (hgrid _) hb
    · exact hb

theorem ringInner_found (points : List SPoint) (used : List Bool)
    (grid : List (List ℕ)) (gw gh : ℕ) (cp : SPoint) (gx gy : ℤ) (r : ℕ)
    (dy dx : ℤ)
    (hskip : ¬(dx.natAbs ≠ r ∧ dy.natAbs ≠ r ∧ 0 < r))
    (hbnd : 0 ≤ gx + dx ∧ gx + dx < (gw : ℤ) ∧ 0 ≤ gy + dy ∧ gy + dy < (gh : ℤ))
    (j : ℕ) (hj : j ∈ grid.getD ((gy + dy) * (gw : ℤ) + (gx + dx)).toNat [])
    (hu : used.getD j true = false) (b2 : Option (ℕ × ℚ)) :
    (ringInner points used grid gw gh cp gx gy r dy b2 dx).isSome = true := by
  unfold ringInner
  rw [if_neg hskip, if_pos hbnd]
  exact scanCell_found _ _ _ _ _ j hj hu

theorem scanRing_isSome (points : List SPoint) (used : List Bool)
    (grid : List (List ℕ)) (gw gh : ℕ) (cp : SPoint) (gx gy : ℤ) (r : ℕ)
    (best : Option (ℕ × ℚ)) (hb : best.isSome = true) :
    (scanRing points used grid gw gh cp gx gy r best).isSome = true := by
  unfold scanRing
  refine foldl_preserve _ (fun b : Option (ℕ × ℚ) => b.isSome = true) ?_ _ _ hb
  intro a dy ha
  exact foldl_preserve _ (fun b : Option (ℕ × ℚ) => b.isSome = true)
    (fun a2 dx ha2 => ringInner_isSome points used grid gw gh cp gx gy r dy a2 dx ha2)
    _ _ ha

theorem scanRing_bestInv (points : List SPoint) (used : List Bool)
    (grid : List (List ℕ)) (gw gh : ℕ) (cp : SPoint) (gx gy : ℤ) (r : ℕ)
    (hgrid : ∀ c : ℕ, ∀ j ∈ grid.getD c [], j < points.length)
    (best : Option (ℕ × ℚ)) (hb : BestInv points used best) :
    BestInv points used (scanRing points used grid gw gh cp gx gy r best) := by
  unfold scanRing
  refine foldl_preserve _ (BestInv points used) ?_ _ _ hb
  intro a dy ha
  exact foldl_preserve _ (BestInv points used)
    (fun a2 dx ha2 => ringInner_bestInv points used grid gw gh cp gx gy r dy a2 dx hgrid ha2)
    _ _ ha

theorem scanRing_found (points : List SPoint) (used : List Bool)
    (grid : List (List ℕ)) (gw gh : ℕ) (cp : SPoint) (gx gy : ℤ) (r : ℕ)
    (dx0 dy0 : ℤ) (hdx : dx0.natAbs ≤ r) (hdy : dy0.natAbs ≤ r)
    (hskip : dx0.natAbs = r ∨ dy0.natAbs = r ∨ r = 0)
    (hbnd : 0 ≤ gx + dx0 ∧ gx + dx0 < (gw : ℤ) ∧ 0 ≤ gy + dy0 ∧ gy + dy0 < (gh : ℤ))
    (j : ℕ) (hj : j ∈ grid.getD ((gy + dy0) * (gw : ℤ) + (gx + dx0)).toNat [])
    (hu : used.getD j true = false) (best : Option (ℕ × ℚ)) :
    (scanRing points used grid gw gh cp gx gy r best).isSome = true := by
  unfold scanRing
  refine foldl_establish_mem _ (fun b : Option (ℕ × ℚ) => b.isSome = true) dy0 ?_ ?_ _ _
    ((mem_rangeZ r dy0).mpr hdy)
  · intro a dy ha
    exact foldl_preserve _ (fun b : Option (ℕ × ℚ) => b.isSome = true)
      (fun a2 dx ha2 => ringInner_isSome points used grid gw gh cp gx gy r dy a2 dx ha2)
      _ _ ha
  · intro a
    refine foldl_establish_mem _ (fun b : Option (ℕ × ℚ) => b.isSome = true) dx0 ?_ ?_ _ _
      ((mem_rangeZ r dx0).mpr hdx)
    · intro a2 dx ha2
      exact ringInner_isSome points used grid gw gh cp gx gy r dy0 a2 dx ha2
    · intro a2
      refine ringInner_found points used grid gw gh cp gx gy r dy0 dx0 ?_ hbnd j hj hu a2
      rintro ⟨h1, h2, h3⟩
      rcases hskip with h | h | h
      · exact h1 h
      · exact h2 h
      · omega

theorem searchLoop_some (points : List SPoint) (used : List Bool)
    (grid : List (List ℕ)) (gw gh : ℕ) (cp : SPoint) (gx gy : ℤ) (r maxR : ℕ)
    (b : ℕ × ℚ) :
    searchLoop points used grid gw gh cp gx gy r maxR (some b) = some b := by
  unfold searchLoop
  split
  · rfl
  · rfl

theorem searchLoop_bestInv (points : List SPoint) (used : List Bool)
    (grid : List (List ℕ)) (gw gh : ℕ) (cp : SPoint) (gx gy : ℤ)
    (hgrid : ∀ c : ℕ, ∀ j ∈ grid.getD c [], j < points.length) :
    ∀ (k r maxR : ℕ), maxR - r ≤ k → ∀ b, BestInv points used b →
      BestInv points used (searchLoop points used grid gw gh cp gx gy r maxR b) := by
  intro k
  induction k with
  | zero =>
      intro r maxR hk b hb
      unfold searchLoop
      rw [if_neg (by omega)]
      exact hb
  | succ k ih =>
      intro r maxR hk b hb
      unfold searchLoop
      by_cases hr : r < maxR
      · rw [if_pos hr]
        cases b with
        | some p => exact hb
        | none =>
            exact ih (r + 1) maxR (by omega) _
              (scanRing_bestInv points used grid gw gh cp gx gy r hgrid none
                (fun j m h => Option.noConfusion h))
      · rw [if_neg hr]
        exact hb

theorem searchLoop_found (points : List SPoint) (used : List Bool)
    (grid : List (List ℕ)) (gw gh : ℕ) (cp : SPoint) (gx gy : ℤ) (d : ℕ)
    (hring : (scanRing points used grid gw gh cp gx gy d none).isSome = true) :
    ∀ (k r maxR : ℕ), r + k = d → d < maxR →
      (searchLoop points used grid gw gh cp gx gy r maxR none).isSome = true := by
  intro k
  induction k with
  | zero =>
      intro r maxR hr hd
      have hrd : r = d := by omega
      subst hrd
      obtain ⟨b, hb⟩ := Option.isSome_iff_exists.mp hring
      unfold searchLoop
      rw [if_pos (by omega)]
      show (searchLoop points used grid gw gh cp gx gy (r + 1) maxR
        (scanRing points used grid gw gh cp gx gy r none)).isSome = true
      rw [hb, searchLoop_some]
      rfl
  | succ k ih =>
      intro r maxR hr hd
      unfold searchLoop
      rw [if_pos (by omega)]
      show (searchLoop points used grid gw gh cp gx gy (r + 1) maxR
        (scanRing points used grid gw gh cp gx gy r none)).isSome = true
      cases hs : scanRing points used grid gw gh cp gx gy r none with
      | none =>
          exact ih (r + 1) maxR (by omega) hd
      | some b =>
          rw [searchLoop_some]
          rfl

theorem search_succeeds (width height : ℕ) (points : List SPoint) (used : List Bool)
    (hb : ∀ p ∈ points, 0 ≤ p.x ∧ p.x < width ∧ 0 ≤ p.y ∧ p.y < height)
    (cur : ℕ) (hcur : cur < points.length)
    (u : ℕ) (hu : u < points.length) (huu : used.getD u true = false) :
    (searchLoop points used (buildTspGrid width height points)
      (tspGridW width) (tspGridH height) (points.getD cur default)
      (tspCellX (points.getD cur default)) (tspCellY (points.getD cur default))
      0 (max (tspGridW width) (tspGridH height)) none).isSome = true := by
  set cp := points.getD cur default with hcp
  set pu := points.getD u default with hpu
  have hcpb := hb cp (getD_mem_of_lt _ _ _ hcur)
  have hpub := hb pu (getD_mem_of_lt _ _ _ hu)
  obtain ⟨hgx, hgy, hgx0, hgy0, _⟩ :=
    tspCell_bounds width height cp hcpb.1 hcpb.2.1 hcpb.2.2.1 hcpb.2.2.2
  obtain ⟨hux, huy, hux0, huy0, _⟩ :=
    tspCell_bounds width height pu hpub.1 hpub.2.1 hpub.2.2.1 hpub.2.2.2
  set dx0 := tspCellX pu - tspCellX cp with hdx0
  set dy0 := tspCellY pu - tspCellY cp with hdy0
  set d := max dx0.natAbs dy0.natAbs with hd
  have hcell : ((tspCellY cp + dy0) * (tspGridW width : ℤ) +
      (tspCellX cp + dx0)).toNat = tspCellIndex width pu := by
    have h1 : tspCellY cp + dy0 = tspCellY pu := by omega
    have h2 : tspCellX cp + dx0 = tspCellX pu := by omega
    rw [h1, h2]
    unfold tspCellIndex
    have h3 : tspCellY pu * (tspGridW width : ℤ) + tspCellX pu =
        (((tspCellY pu).toNat * tspGridW width + (tspCellX pu).toNat : ℕ) : ℤ) := by
      push_cast [Int.toNat_of_nonneg huy0, Int.toNat_of_nonneg hux0]
      ring
    rw [h3, Int.toNat_natCast]
  have hmem : u ∈ (buildTspGrid width height points).getD
      ((tspCellY cp + dy0) * (tspGridW width : ℤ) + (tspCellX cp + dx0)).toNat [] := by
    rw [hcell]
    exact buildTspGrid_covers width height points hb u hu
  have hring := scanRing_found points used (buildTspGrid width height points)
    (tspGridW width) (tspGridH height) cp (tspCellX cp) (tspCellY cp) d dx0 dy0
    (by omega) (by omega) (by omega) ⟨by omega, by omega, by omega, by omega⟩
    u hmem huu none
  exact searchLoop_found points used (buildTspGrid width height points)
    (tspGridW width) (tspGridH height) cp (tspCellX cp) (tspCellY cp) d hring
    d 0 (max (tspGridW width) (tspGridH height)) (by omega) (by omega)

/-- The loop invariant of the tour construction: the used flags have one
entry per point and record exactly the indices already placed in the tour,
the placed indices are distinct and in range, their count plus the remaining
iterations is the total, and the current index is in range. -/
def TourInv (n : ℕ) (used : List Bool) (ordered : List ℕ) (remaining cur : ℕ) : Prop :=
  used.length = n ∧ ordered.Nodup ∧ ordered.length + remaining = n ∧
  (∀ i ∈ ordered, i < n) ∧ (∀ i, i < n → (used.getD i true = true ↔ i ∈ ordered)) ∧
  cur < n

theorem tspLoop_perm (width height : ℕ) (points : List SPoint)
    (hb : ∀ p ∈ points, 0 ≤ p.x ∧ p.x < width ∧ 0 ≤ p.y ∧ p.y < height) :
    ∀ (remaining : ℕ) (used : List Bool) (ordered : List ℕ) (cur : ℕ),
      TourInv points.length used ordered remaining cur →
      (tspLoop points (buildTspGrid width height points) (tspGridW width)
        (tspGridH height) remaining used ordered cur).Perm
        (List.range points.length) := by
  intro remaining
  induction remaining with
  | zero =>
      intro used ordered cur hinv
      obtain ⟨hul, hnd, hlen, hsub, hiff, hcur⟩ := hinv
      rw [tspLoop]
      have hsp : ordered.Subperm (List.range points.length) :=
        hnd.subperm (fun i hi => List.mem_range.mpr (hsub i hi))
      exact hsp.perm_of_length_le (by simp only [List.length_range]; omega)
  | succ rem ih =>
      intro used ordered cur hinv
      obtain ⟨hul, hnd, hlen, hsub, hiff, hcur⟩ := hinv
      have hexists : ∃ u, u < points.length ∧ u ∉ ordered := by
        by_contra hcon
        push_neg at hcon
        have hsubset : List.range points.length ⊆ ordered :=
          fun u hu => hcon u (List.mem_range.mp hu)
        have hle := ((List.nodup_range points.length).subperm hsubset).length_le
        simp only [List.length_range] at hle
        omega
      obtain ⟨u, hu, hunotin⟩ := hexists
      have huu : used.getD u true = false := by
        cases hval : used.getD u true
        · rfl
        · exact absurd ((hiff u hu).mp hval) hunotin
      rw [tspLoop]
      cases hs : searchLoop points used (buildTspGrid width height points)
          (tspGridW width) (tspGridH height) (points.getD cur default)
          (tspCellX (points.getD cur default)) (tspCellY (points.getD cur default))
          0 (max (tspGridW width) (tspGridH height)) none with
      | none =>
          exfalso
          have hsucc := search_succeeds width height points used hb cur hcur u hu huu
          rw [hs] at hsucc
          exact Bool.noConfusion hsucc
      | some nb =>
          have hbi := searchLoop_bestInv points used (buildTspGrid width height points)
            (tspGridW width) (tspGridH height) (points.getD cur default)
            (tspCellX (points.getD cur default)) (tspCellY (points.getD cur default))
            (buildTspGrid_mem_lt width height points)
            (max (tspGridW width) (tspGridH height)) 0
            (max (tspGridW width) (tspGridH height)) (by omega) none
            (fun j m h => Option.noConfusion h)
          obtain ⟨hnbu, hnbn⟩ := hbi nb.1 nb.2 (by rw [hs])
          have hnbnotin : nb.1 ∉ ordered := by
            intro hmem
            have htrue := (hiff nb.1 hnbn).mpr hmem
            rw [htrue] at hnbu
            exact Bool.noConfusion hnbu
          apply ih (used.set nb.1 true) (ordered ++ [nb.1]) nb.1

          refine ⟨by simp [hul], ?_, ?_, ?_, ?_, hnbn⟩
          · refine hnd.append (List.nodup_singleton _) ?_
            intro a ha ha2
            rw [List.mem_singleton] at ha2
            subst ha2
            exact hnbnotin ha
          · simp only [List.length_append, List.length_singleton]
            omega
          · intro i hi
            rcases List.mem_append.mp hi with h1 | h2
            · exact hsub i h1
            · rw [List.mem_singleton.mp h2]
              exact hnbn
          · intro i hin
            by_cases hieq : i = nb.1
            · subst hieq
              constructor
              · intro _
                exact List.mem_append_right _ (List.mem_singleton.mpr rfl)
              · intro _
                exact getD_set_self used nb.1 true true (by omega)
            · rw [getD_set_ne used nb.1 i true true hieq]
              constructor
              · intro h
                exact List.mem_append_left _ ((hiff i hin).mp h)
              · intro h
                rcases List.mem_append.mp h with h1 | h2
                · exact (hiff i hin).mpr h1
                · exact absurd (List.mem_singleton.mp h2) hieq

theorem map_getD_range {α : Type} (l : List α) (d : α) :
    (List.range l.length).map (fun i => l.getD i d) = l := by
  apply List.ext_getElem
  · simp
  · intro i h1 h2
    rw [List.getElem_map, List.getElem_range]
    exact List.getD_eq_getElem l d h2

/-- C9: for every in-bounds stipple-point input, the TSP tour handleExtractTSP
builds is a permutation of the input whenever there are at least two points,
and is empty whenever there are fewer than two: the nearest-unused search
always succeeds (every unused point's cell lies on the ring whose radius is
the Chebyshev distance between the two cells, which is below
max(gridWidth, gridHeight)), so the loop never breaks early and selects each
index exactly once. -/
theorem C9_tour_permutation (width height : ℕ) (points : List SPoint)
    (hb : ∀ p ∈ points, 0 ≤ p.x ∧ p.x < width ∧ 0 ≤ p.y ∧ p.y < height) :
    (2 ≤ points.length → (tspTour width height points).Perm points) ∧
    (points.length < 2 → tspTour width height points = []) := by
  constructor
  · intro h2
    unfold tspTour
    rw [if_neg (by omega)]
    have hinv : TourInv points.length
        ((List.replicate points.length false).set 0 true) [0]
        (points.length - 1) 0 := by
      refine ⟨by simp, List.nodup_singleton 0, by simp; omega, ?_, ?_, by omega⟩
      · intro i hi
        rw [List.mem_singleton.mp hi]
        omega
      · intro i hin
        by_cases hi0 : i = 0
        · subst hi0
          constructor
          · intro _
            exact List.mem_singleton.mpr rfl
          · intro _
            exact getD_set_self _ _ _ _ (by simp; omega)
        · rw [getD_set_ne _ 0 i true true hi0]
          constructor
          · intro h
            exfalso
            have hrep : (List.replicate points.length false).getD i true = false := by
              rw [List.getD_eq_getElem?_getD]
              simp [List.getElem?_replicate, hin]
            rw [hrep] at h
            exact Bool.noConfusion h
          · intro h
            exact absurd (List.mem_singleton.mp h) hi0
    have hperm := tspLoop_perm width height points hb (points.length - 1)
      ((List.replicate points.length false).set 0 true) [0] 0 hinv
    have hmap := hperm.map (fun i => points.getD i default)
    rw [map_getD_range points default] at hmap
    unfold tspTourIdx
    exact hmap
  · intro h2
    unfold tspTour
    rw [if_pos h2]

theorem C9_tour_permutation_witness :
    (tspTour 30 30 [⟨1, 1⟩, ⟨25, 1⟩, ⟨3, 1⟩]).Perm [⟨1, 1⟩, ⟨25, 1⟩, ⟨3, 1⟩] := by
  have hb : ∀ p ∈ ([⟨1, 1⟩, ⟨25, 1⟩, ⟨3, 1⟩] : List SPoint),
      0 ≤ p.x ∧ p.x < 30 ∧ 0 ≤ p.y ∧ p.y < 30 := by
    intro p hp
    fin_cases hp <;> refine ⟨?_, ?_, ?_, ?_⟩ <;> norm_num
  exact (C9_tour_permutation 30 30 _ hb).1 (by norm_num)

end MarchingWaves
